import Mathlib

/-!
Verification development for the MemProf callsite context graph
(`llvm/lib/Transforms/IPO/MemProfContextDisambiguation.cpp`).

The C++ source is shallowly embedded as executable Lean definitions:

* `DenseSet<uint32_t>` context-id sets are represented canonically as
  strictly ascending duplicate-free `List Nat` values (`IdSet`); the
  unordered C++ set's `begin()` is the head of the canonical list, i.e.
  its least element.
* Nodes and edges are held in arenas (`List ContextNode`,
  `List ContextEdge`); the shared-pointer edge lists of the source become
  lists of edge indices, and erasing an edge removes its index from both
  endpoint lists (the record itself stays in the arena, mirroring a
  `shared_ptr` that is still referenced by a stale copy).
* `std::map` / `MapVector` tables become association lists in insertion
  order.
* Recursions that are not structural in the source (post-order DFS over a
  possibly cyclic graph, worklists) take an explicit fuel argument; every
  step consumes fuel, and theorems hold for all fuel values or are
  evaluated with sufficient fuel on concrete inputs.
* The IR (regular-LTO) back-end is the one instantiated: `getStackId` is
  the identity, calls are named by `(function index, instruction index)`
  pairs, and `calleeMatchesFunc` is an oracle parameter since its body
  inspects IR constructs (pointer casts, aliases) that are outside the
  graph core.
-/

/-! ## AllocType algebra

`AllocationType` is a 2-bit mask: `None = 0`, `NotCold = 1`, `Cold = 2`,
`All = 3` (`NotCold | Cold`). -/

/-- `AllocationType::None`. -/
def AllocTypeNone : Nat := 0

/-- `AllocationType::NotCold` (bit 0). -/
def AllocTypeNotCold : Nat := 1

/-- `AllocationType::Cold` (bit 1). -/
def AllocTypeCold : Nat := 2

/-- `llvm::memprof::hasSingleAllocType`: true when exactly one bit of the
2-bit mask is set (the source computes `popcount(AllocTypes) == 1`; on the
masks `0..3` that the graph produces this is `m = 1 ∨ m = 2`). -/
def hasSingleAllocType (m : Nat) : Bool :=
  m == 1 || m == 2

/-- `allocTypeToUse`: map a mask that may contain `NotCold|Cold` to the
alloc type actually used on the allocation; an ambiguous `NotCold|Cold`
mask falls back to `NotCold` (the source asserts the argument is not
`None`). -/
def allocTypeToUse (m : Nat) : Nat :=
  if m = (AllocTypeNotCold ||| AllocTypeCold) then AllocTypeNotCold else m

/-! ## Canonical context-id sets -/

/-- Canonical representation of `DenseSet<uint32_t>`: a strictly ascending
duplicate-free list of context ids. -/
abbrev IdSet := List Nat

/-- Insert an id, keeping the list ascending and duplicate-free. -/
def idInsert (x : Nat) : IdSet → IdSet
  | [] => [x]
  | a :: s =>
    if x < a then x :: a :: s
    else if x = a then a :: s
    else a :: idInsert x s

/-- `set_union`: insert every member of the first set into the second
(the result is canonical when both inputs are). -/
def idUnion (s t : IdSet) : IdSet :=
  s.foldl (fun acc x => idInsert x acc) t

/-- `set_intersect`: intersection of two canonical id sets (the members
of `s` also found in `t`). -/
def idInter (s t : IdSet) : IdSet :=
  s.filter (fun x => t.contains x)

/-- `set_subtract`: remove the members of `t` from `s`. -/
def idSub (s t : IdSet) : IdSet :=
  s.filter (fun x => !t.contains x)

/-- Membership test on an id set. -/
def idMem (x : Nat) (s : IdSet) : Bool :=
  s.contains x

/-! ## Association-list maps -/

/-- Lookup in an association list, with a default for absent keys. -/
def alistGetD {α β : Type} [BEq α] (m : List (α × β)) (k : α) (d : β) : β :=
  match m.find? (fun p => p.1 == k) with
  | some p => p.2
  | none => d

/-- Lookup in an association list. -/
def alistGet? {α β : Type} [BEq α] (m : List (α × β)) (k : α) : Option β :=
  (m.find? (fun p => p.1 == k)).map (·.2)

/-- Insert (or overwrite) a binding; the new binding shadows any old one. -/
def alistInsert {α β : Type} [BEq α] (m : List (α × β)) (k : α) (v : β) :
    List (α × β) :=
  (k, v) :: m

/-! ## Graph data model -/

/-- A call handle in the IR back-end: (function index, instruction index). -/
abbrev Call := Nat × Nat

/-- `CallInfo`: a call handle paired with a clone number. -/
abbrev CallInfo := Call × Nat

/-- `ContextNode`: a node of the callsite context graph.  Edge lists hold
indices into the graph's edge arena; `clones` and `cloneOf` hold node
indices. -/
structure ContextNode where
  isAllocation : Bool
  recursive : Bool := false
  call : Option CallInfo := none
  origStackOrAllocId : Nat := 0
  allocTypes : Nat := 0
  calleeEdges : List Nat := []
  callerEdges : List Nat := []
  contextIds : IdSet := []
  clones : List Nat := []
  cloneOf : Option Nat := none
deriving Repr, DecidableEq, Inhabited

/-- `ContextNode::hasCall`. -/
def ContextNode.hasCall (n : ContextNode) : Bool :=
  n.call.isSome

/-- `ContextNode::isRemoved`: a node is logically removed when its context
id set has drained. -/
def ContextNode.isRemoved (n : ContextNode) : Bool :=
  n.contextIds.isEmpty

/-- `ContextEdge`: an edge from a callee node to a caller node, decorated
with an alloc-type mask and the context ids it carries. -/
structure ContextEdge where
  callee : Nat
  caller : Nat
  allocTypes : Nat
  contextIds : IdSet
deriving Repr, DecidableEq, Inhabited

/-- The graph state owned by `CallsiteContextGraph`. -/
structure CCGState where
  nodes : List ContextNode := []
  edges : List ContextEdge := []
  contextIdToAllocationType : List (Nat × Nat) := []
  stackEntryIdToContextNodeMap : List (Nat × Nat) := []
  allocationCallToContextNodeMap : List (CallInfo × Nat) := []
  nonAllocationCallToContextNodeMap : List (CallInfo × Nat) := []
  nodeToCallingFunc : List (Nat × Nat) := []
  funcToCallsWithMetadata : List (Nat × List CallInfo) := []
  lastContextId : Nat := 0
deriving Repr, DecidableEq, Inhabited

/-- Fetch a node by arena index. -/
def getNode (s : CCGState) (i : Nat) : ContextNode :=
  (s.nodes.get? i).getD default

/-- Fetch an edge by arena index. -/
def getEdge (s : CCGState) (i : Nat) : ContextEdge :=
  (s.edges.get? i).getD default

/-- Replace a node in the arena. -/
def setNodeAt (s : CCGState) (i : Nat) (n : ContextNode) : CCGState :=
  { s with nodes := s.nodes.set i n }

/-- Update a node in place. -/
def updNode (s : CCGState) (i : Nat) (f : ContextNode → ContextNode) :
    CCGState :=
  setNodeAt s i (f (getNode s i))

/-- Update an edge in place. -/
def updEdge (s : CCGState) (i : Nat) (f : ContextEdge → ContextEdge) :
    CCGState :=
  { s with edges := s.edges.set i (f (getEdge s i)) }

/-- Lookup in a `CallInfo`-keyed map (association list in insertion
order, the shape of the source's `MapVector`). -/
def cmapGet? (m : List (CallInfo × Nat)) (c : CallInfo) : Option Nat :=
  (m.find? (fun p => p.1 == c)).map (·.2)

/-- `getNodeForStackId`. -/
def getNodeForStackId (s : CCGState) (stackId : Nat) : Option Nat :=
  alistGet? s.stackEntryIdToContextNodeMap stackId

/-- `computeAllocType`: union of the recorded alloc types of a set of
context ids. -/
def computeAllocType (m : List (Nat × Nat)) (ids : IdSet) : Nat :=
  ids.foldl (fun a id => a ||| alistGetD m id 0) 0

/-- `intersectAllocTypesImpl`: union of the recorded alloc types over the
intersection of two id sets, iterating the first set. -/
def intersectAllocTypesImpl (m : List (Nat × Nat)) (ids1 ids2 : IdSet) :
    Nat :=
  ids1.foldl (fun a id => if idMem id ids2 then a ||| alistGetD m id 0 else a)
    0

/-- `intersectAllocTypes`: as `intersectAllocTypesImpl`, iterating the
smaller set. -/
def intersectAllocTypes (m : List (Nat × Nat)) (ids1 ids2 : IdSet) : Nat :=
  if ids1.length < ids2.length then intersectAllocTypesImpl m ids1 ids2
  else intersectAllocTypesImpl m ids2 ids1

/-- `allocTypesMatch`: pairwise comparison of a recorded alloc-type vector
against the alloc types of an edge list; a `None` on either side acts as a
wildcard.  (The source uses `std::equal`, defined only when the edge list
is at least as long as the vector; the embedding compares the common
prefix.) -/
def allocTypesMatch (s : CCGState) : List Nat → List Nat → Bool
  | [], _ => true
  | _ :: _, [] => true
  | l :: ls, ei :: eis =>
    (l == AllocTypeNone || (getEdge s ei).allocTypes == AllocTypeNone ||
      allocTypeToUse l == allocTypeToUse (getEdge s ei).allocTypes) &&
    allocTypesMatch s ls eis

/-- `ContextNode::findEdgeFromCallee`: first callee-edge index whose callee
is the given node. -/
def findEdgeFromCallee (s : CCGState) (nIdx calleeIdx : Nat) : Option Nat :=
  (getNode s nIdx).calleeEdges.find? (fun ei => (getEdge s ei).callee == calleeIdx)

/-- `ContextNode::findEdgeFromCaller`: first caller-edge index whose caller
is the given node. -/
def findEdgeFromCaller (s : CCGState) (nIdx callerIdx : Nat) : Option Nat :=
  (getNode s nIdx).callerEdges.find? (fun ei => (getEdge s ei).caller == callerIdx)

/-- `ContextNode::eraseCalleeEdge`. -/
def eraseCalleeEdge (s : CCGState) (nIdx ei : Nat) : CCGState :=
  updNode s nIdx (fun n => { n with calleeEdges := n.calleeEdges.erase ei })

/-- `ContextNode::eraseCallerEdge`. -/
def eraseCallerEdge (s : CCGState) (nIdx ei : Nat) : CCGState :=
  updNode s nIdx (fun n => { n with callerEdges := n.callerEdges.erase ei })

/-- `ContextNode::addOrUpdateCallerEdge`: merge into an existing edge to
the same caller, or create a fresh edge registered with both endpoints. -/
def addOrUpdateCallerEdge (s : CCGState) (selfIdx callerIdx t cid : Nat) :
    CCGState :=
  match (getNode s selfIdx).callerEdges.find?
      (fun ei => (getEdge s ei).caller == callerIdx) with
  | some ei =>
    updEdge s ei (fun e =>
      { e with allocTypes := e.allocTypes ||| t,
               contextIds := idInsert cid e.contextIds })
  | none =>
    let ei := s.edges.length
    let s := { s with
      edges := s.edges ++ [⟨selfIdx, callerIdx, t, [cid]⟩] }
    let s := updNode s selfIdx (fun n =>
      { n with callerEdges := n.callerEdges ++ [ei] })
    updNode s callerIdx (fun n =>
      { n with calleeEdges := n.calleeEdges ++ [ei] })

/-- `removeNoneTypeCalleeEdges`: drop the node's callee edges whose alloc
type is `None`, mirroring the removal on the callee side. -/
def removeNoneTypeCalleeEdges (s : CCGState) (nIdx : Nat) : CCGState :=
  (getNode s nIdx).calleeEdges.foldl
    (fun s ei =>
      if (getEdge s ei).allocTypes == AllocTypeNone then
        let s := eraseCallerEdge s (getEdge s ei).callee ei
        eraseCalleeEdge s nIdx ei
      else s) s

/-- `ContextNode::addClone`: record the clone against the canonical
original. -/
def addClone (s : CCGState) (selfIdx cloneIdx : Nat) : CCGState :=
  match (getNode s selfIdx).cloneOf with
  | some origIdx =>
    let s := updNode s origIdx (fun n => { n with clones := n.clones ++ [cloneIdx] })
    updNode s cloneIdx (fun n => { n with cloneOf := some origIdx })
  | none =>
    let s := updNode s selfIdx (fun n => { n with clones := n.clones ++ [cloneIdx] })
    updNode s cloneIdx (fun n => { n with cloneOf := some selfIdx })

/-! ## Builder (graph construction from MIBs) -/

/-- `addAllocNode`: create an allocation node, register it in the
allocation-call map and `NodeToCallingFunc`, label it with the current
`LastContextId`, and start its alloc-type mask at `None`. -/
def addAllocNode (s : CCGState) (call : CallInfo) (f : Nat) :
    CCGState × Nat :=
  let idx := s.nodes.length
  let node : ContextNode :=
    { isAllocation := true, call := some call,
      origStackOrAllocId := s.lastContextId, allocTypes := AllocTypeNone }
  let s := { s with
    nodes := s.nodes ++ [node],
    allocationCallToContextNodeMap :=
      s.allocationCallToContextNodeMap ++ [(call, idx)],
    nodeToCallingFunc := alistInsert s.nodeToCallingFunc idx f }
  (s, idx)

/-- Modelled from the spec: `CallStack::beginAfterSharedPrefix` (declared
in `llvm/Analysis/MemoryProfileInfo.h`, not under `src/`) — "For each
stack id in the MIB, after skipping any shared prefix with the alloc's own
inlined context". -/
def dropSharedPrefix : List Nat → List Nat → List Nat
  | s, [] => s
  | [], _ => []
  | a :: s, b :: t => if a = b then dropSharedPrefix s t else a :: s

/-- Look up the stack node for a stack id, creating and registering it if
absent. -/
def getOrCreateStackNode (s : CCGState) (stackId : Nat) : CCGState × Nat :=
  match getNodeForStackId s stackId with
  | some i => (s, i)
  | none =>
    let i := s.nodes.length
    let node : ContextNode :=
      { isAllocation := false, origStackOrAllocId := stackId }
    let s := { s with
      nodes := s.nodes ++ [node],
      stackEntryIdToContextNodeMap :=
        alistInsert s.stackEntryIdToContextNodeMap stackId i }
    (s, i)

/-- Record one context id (with its alloc type) on a node: the context-id
insertion and alloc-type OR that the source performs on the alloc node and
on each stack node of the MIB chain. -/
def nodeAddContext (cid t : Nat) (n : ContextNode) : ContextNode :=
  { n with allocTypes := n.allocTypes ||| t,
           contextIds := idInsert cid n.contextIds }

/-- One iteration of the per-stack-id loop of `addStackNodesForMIB`:
create or look up the stack node, mark it recursive when its stack id was
already seen in this chain, record the context id and alloc type on it,
and link it as caller of the previous node.  Returns the new state and
the node's index. -/
def addMIBChainStep (cid t : Nat) (s : CCGState) (prevIdx : Nat)
    (seen : List Nat) (stackId : Nat) : CCGState × Nat :=
  let p := getOrCreateStackNode s stackId
  let s := p.1
  let nIdx := p.2
  let s :=
    if seen.contains stackId then
      updNode s nIdx (fun n => { n with recursive := true })
    else s
  let s := updNode s nIdx (nodeAddContext cid t)
  let s := addOrUpdateCallerEdge s prevIdx nIdx t cid
  (s, nIdx)

/-- The per-stack-id loop of `addStackNodesForMIB`: walk the MIB's stack
ids (innermost first), creating or updating a stack node for each,
detecting recursion via the set of stack ids already seen in this chain,
and linking each node to the previous one with a caller edge. -/
def addMIBChain (cid t : Nat) :
    CCGState → Nat → List Nat → List Nat → CCGState
  | s, _, _, [] => s
  | s, prevIdx, seen, stackId :: rest =>
    let p := addMIBChainStep cid t s prevIdx seen stackId
    addMIBChain cid t p.1 p.2 (seen ++ [stackId]) rest

/-- `addStackNodesForMIB`: mint a fresh context id mapped to the MIB's
alloc type, record it on the allocation node, then add or update a stack
node for every stack id of the context (skipping the prefix shared with
the allocation's own inlined callsite context). -/
def addStackNodesForMIB (s : CCGState) (allocIdx : Nat)
    (stackContext callsiteContext : List Nat) (t : Nat) : CCGState :=
  let cid := s.lastContextId + 1
  let s := { s with
    lastContextId := cid,
    contextIdToAllocationType :=
      alistInsert s.contextIdToAllocationType cid t }
  let s := updNode s allocIdx (nodeAddContext cid t)
  addMIBChain cid t s allocIdx [] (dropSharedPrefix stackContext callsiteContext)

/-! ## IR module model and the constructor's scan -/

/-- An IR instruction as far as this pass observes it: whether it is a
call, and its optional `!memprof` (list of MIBs, each a stack-id list
innermost-first plus an alloc type) and `!callsite` (stack-id list)
metadata. -/
structure Instr where
  isCall : Bool := true
  memprof : Option (List (List Nat × Nat)) := none
  callsite : Option (List Nat) := none
deriving Repr, DecidableEq, Inhabited

/-- A module: functions (indexed by position), each a list of
instructions. -/
abbrev ModuleIR := List (List Instr)

/-- Fetch an instruction by call handle. -/
def getInstr (m : ModuleIR) (c : Call) : Instr :=
  ((m.get? c.1).getD []).get? c.2 |>.getD default

/-- Rewrite an instruction in place. -/
def setInstr (m : ModuleIR) (c : Call) (g : Instr → Instr) : ModuleIR :=
  m.set c.1 (((m.get? c.1).getD []).set c.2 (g (getInstr m c)))

/-- The per-instruction step of the `ModuleCallsiteContextGraph`
constructor's scan: allocation calls (with `!memprof`) get an alloc node
plus stack nodes for each MIB and have both metadata kinds stripped;
calls with only `!callsite` metadata are recorded for later matching.
Returns the updated graph, instruction, and (possibly extended) list of
this function's calls with metadata. -/
def scanInstr (f i : Nat) (acc : CCGState × List CallInfo) (ins : Instr) :
    (CCGState × List CallInfo) × Instr :=
  let s := acc.1
  let calls := acc.2
  if !ins.isCall then ((s, calls), ins)
  else
    match ins.memprof with
    | some mibs =>
      let callInfo : CallInfo := ((f, i), 0)
      let calls := calls ++ [callInfo]
      let p := addAllocNode s callInfo f
      let callsiteContext := ins.callsite.getD []
      let s := mibs.foldl
        (fun s mib => addStackNodesForMIB s p.2 mib.1 callsiteContext mib.2)
        p.1
      ((s, calls), { ins with memprof := none, callsite := none })
    | none =>
      if ins.callsite.isSome then
        ((s, calls ++ [((f, i), 0)]), ins)
      else ((s, calls), ins)

/-- One instruction of the per-function scan fold: feed the instruction to
`scanInstr` at the running index, append the rewritten instruction, and
advance the index. -/
def scanStep (f : Nat) (acc : (CCGState × List CallInfo) × List Instr × Nat)
    (ins : Instr) : (CCGState × List CallInfo) × List Instr × Nat :=
  let i := acc.2.2
  let st := scanInstr f i acc.1 ins
  (st.1, (acc.2.1 ++ [st.2], i + 1))

/-- Scan one function's instructions. -/
def scanFunc (s : CCGState) (f : Nat) (instrs : List Instr) :
    CCGState × List Instr :=
  let r := instrs.foldl (scanStep f) (((s, []), ([], 0)))
  let s := r.1.1
  let calls := r.1.2
  let s :=
    if calls.isEmpty then s
    else { s with
      funcToCallsWithMetadata := s.funcToCallsWithMetadata ++ [(f, calls)] }
  (s, r.2.1)

/-- One function of the module-scan fold. -/
def moduleScanStep (acc : CCGState × ModuleIR × Nat) (instrs : List Instr) :
    CCGState × ModuleIR × Nat :=
  let f := acc.2.2
  let p := scanFunc acc.1 f instrs
  (p.1, (acc.2.1 ++ [p.2], f + 1))

/-- The constructor's initial scan over the whole module: build the
allocation nodes and MIB stack chains, strip metadata from allocation
calls, and record every call carrying metadata. -/
def moduleScan (m : ModuleIR) : CCGState × ModuleIR :=
  let r := m.foldl moduleScanStep (({}, ([], 0)))
  (r.1, r.2.1)

/-! ## Stack-node reconciler (`updateStackNodes`) -/

/-- `getStackIdsWithContextNodes`: longest prefix of a callsite's stack-id
sequence whose ids all have context nodes (`getStackId` is the identity in
the IR back-end). -/
def getStackIdsWithContextNodes (s : CCGState) : List Nat → List Nat
  | [] => []
  | id :: rest =>
    if (getNodeForStackId s id).isSome then
      id :: getStackIdsWithContextNodes s rest
    else []

/-- `getStackIdsWithContextNodesForCall` (IR back-end): read the call's
`!callsite` metadata. -/
def getStackIdsWithContextNodesForCall (s : CCGState) (m : ModuleIR)
    (c : Call) : List Nat :=
  getStackIdsWithContextNodes s ((getInstr m c).callsite.getD [])

/-- `getLastStackId` (IR back-end): the last (outermost-caller) stack id
of the call's `!callsite` metadata. -/
def getLastStackId (m : ModuleIR) (c : Call) : Nat :=
  ((getInstr m c).callsite.getD []).getLast?.getD 0

/-- `CallContextInfo`: a call recorded for reconciliation, its kept
stack-id sequence, its enclosing function, and the context ids eventually
assigned to it. -/
structure CallContextInfo where
  call : Call
  ids : List Nat
  func : Nat
  savedContextIds : IdSet
deriving Repr, DecidableEq, Inhabited

/-- Append to a bucket of `StackIdToMatchingCalls` (insertion-order map). -/
def bucketAdd (bs : List (Nat × List CallContextInfo)) (k : Nat)
    (v : CallContextInfo) : List (Nat × List CallContextInfo) :=
  if (alistGet? bs k).isSome then
    bs.map (fun p => if p.1 == k then (p.1, p.2 ++ [v]) else p)
  else bs ++ [(k, [v])]

/-- First phase of `updateStackNodes`: index every non-allocation call
with metadata under the last stack id of its kept sequence, dropping calls
whose sequence truncates to nothing. -/
def collectMatchingCalls (s : CCGState) (m : ModuleIR) :
    List (Nat × List CallContextInfo) :=
  s.funcToCallsWithMetadata.foldl
    (fun bs p =>
      p.2.foldl
        (fun bs call =>
          if (cmapGet? s.allocationCallToContextNodeMap call).isSome then bs
          else
            let ids := getStackIdsWithContextNodesForCall s m call.1
            if ids.isEmpty then bs
            else
              bucketAdd bs (ids.getLast?.getD 0)
                { call := call.1, ids := ids, func := p.1,
                  savedContextIds := [] })
        bs)
    []

/-- Lexicographic `<` on stack-id vectors (`std::vector::operator<`). -/
def listLtLex : List Nat → List Nat → Bool
  | [], [] => false
  | [], _ :: _ => true
  | _ :: _, [] => false
  | a :: s, b :: t => a < b || (a == b && listLtLex s t)

/-- The sort predicate of `updateStackNodes`: descending length, then
lexicographically ascending by stack ids. -/
def callSortLt (a b : CallContextInfo) : Bool :=
  a.ids.length > b.ids.length ||
    (a.ids.length == b.ids.length && listLtLex a.ids b.ids)

/-- Stable insertion of `x` into a list sorted by `lt`: `x` goes before
the first element not strictly below it, so equivalent elements keep
their original relative order (the guarantee of `std::stable_sort`). -/
def stableInsert {α : Type} (lt : α → α → Bool) (x : α) :
    List α → List α
  | [] => [x]
  | y :: ys => if lt y x then y :: stableInsert lt x ys else x :: y :: ys

/-- Stable sort by a strict comparator (`std::stable_sort`). -/
def stableSort {α : Type} (lt : α → α → Bool) : List α → List α
  | [] => []
  | x :: xs => stableInsert lt x (stableSort lt xs)

/-- One step of `DuplicateContextIds`: mint one fresh context id, copy
the original id's alloc type to it, and extend the old-to-new map. -/
def dupStep (acc : CCGState × IdSet × List (Nat × IdSet)) (oldId : Nat) :
    CCGState × IdSet × List (Nat × IdSet) :=
  let s := acc.1
  let newId := s.lastContextId + 1
  let s := { s with
    lastContextId := newId,
    contextIdToAllocationType :=
      alistInsert s.contextIdToAllocationType newId
        (alistGetD s.contextIdToAllocationType oldId 0) }
  (s, idInsert newId acc.2.1,
    alistInsert acc.2.2 oldId
      (idInsert newId (alistGetD acc.2.2 oldId [])))

/-- `duplicateContextIds`: mint a fresh context id for every id of the
given set, copying each original id's alloc type to its duplicate, and
extend the old-to-new map.  Returns the new id set. -/
def duplicateContextIds (s : CCGState) (ids : IdSet)
    (old2new : List (Nat × IdSet)) :
    CCGState × IdSet × List (Nat × IdSet) :=
  ids.foldl dupStep (s, [], old2new)

/-- `GetNewIds` (inside `propagateDuplicateContextIds`): the duplicated
ids corresponding to a given id set. -/
def getNewIds (old2new : List (Nat × IdSet)) (ids : IdSet) : IdSet :=
  ids.foldl (fun acc id => idUnion acc (alistGetD old2new id [])) []

/-- `UpdateCallers` (inside `propagateDuplicateContextIds`): walk caller
edges, adding the duplicated ids to any edge (and its caller node) whose
context ids contain an original id; memoized per edge. -/
def updateCallersDup (old2new : List (Nat × IdSet)) :
    Nat → CCGState → List Nat → Nat → CCGState × List Nat
  | 0, s, visited, _ => (s, visited)
  | fuel + 1, s, visited, nodeIdx =>
    (getNode s nodeIdx).callerEdges.foldl
      (fun acc ei =>
        let s := acc.1
        let visited := acc.2
        if visited.contains ei then (s, visited)
        else
          let visited := visited ++ [ei]
          let nextNode := (getEdge s ei).caller
          let newIdsToAdd := getNewIds old2new (getEdge s ei).contextIds
          if newIdsToAdd.isEmpty then (s, visited)
          else
            let s := updEdge s ei (fun e =>
              { e with contextIds := idUnion e.contextIds newIdsToAdd })
            let s := updNode s nextNode (fun n =>
              { n with contextIds := idUnion n.contextIds newIdsToAdd })
            updateCallersDup old2new fuel s visited nextNode)
      (s, visited)

/-- `propagateDuplicateContextIds`: seed every allocation node with the
duplicates of its own ids, then propagate along caller edges. -/
def propagateDuplicateContextIds (s : CCGState)
    (old2new : List (Nat × IdSet)) : CCGState :=
  (s.allocationCallToContextNodeMap.foldl
    (fun acc p =>
      let s := acc.1
      let nIdx := p.2
      let newIdsToAdd := getNewIds old2new (getNode s nIdx).contextIds
      let s := updNode s nIdx (fun n =>
        { n with contextIds := idUnion n.contextIds newIdsToAdd })
      updateCallersDup old2new (s.nodes.length + 1) s acc.2 nIdx)
    (s, [])).1

/-- The backward walk over a call's stack-id sequence in the second phase
of `updateStackNodes`: starting after the last id, intersect the context
ids along each caller edge of the sequence; `none` when a node is
recursive, an edge is missing, or the intersection drains (the `Skip`
cases of the source). -/
def seqWalk (s : CCGState) : List Nat → Nat → IdSet → Option (IdSet × Nat)
  | [], cur, acc => some (acc, cur)
  | id :: rest, prev, acc =>
    match getNodeForStackId s id with
    | none => none
    | some curIdx =>
      if (getNode s curIdx).recursive then none
      else
        match findEdgeFromCaller s curIdx prev with
        | none => none
        | some ei =>
          let acc := idInter acc (getEdge s ei).contextIds
          if acc.isEmpty then none
          else seqWalk s rest curIdx acc

/-- Subtract from an id set the context ids of every caller edge of a
node (the truncated-sequence adjustment of `updateStackNodes`). -/
def subtractCallerIds (s : CCGState) (nIdx : Nat) (ids : IdSet) : IdSet :=
  (getNode s nIdx).callerEdges.foldl
    (fun acc ei => idSub acc (getEdge s ei).contextIds) ids

/-- The per-call loop of the second phase of `updateStackNodes` for one
bucket: compute each call's stack-sequence context ids, minting duplicate
ids when the call's sequence equals the next call's sequence in sort
order, and otherwise consuming the computed ids from the last node's
remaining pool (stopping when the pool drains). -/
def processBucketCalls (m : ModuleIR) :
    CCGState → List (Nat × IdSet) → IdSet → Nat → List CallContextInfo →
    CCGState × List (Nat × IdSet) × List CallContextInfo
  | s, old2new, _, _, [] => (s, old2new, [])
  | s, old2new, pool, lastNodeIdx, c :: rest =>
    match seqWalk s (c.ids.reverse.drop 1) lastNodeIdx pool with
    | none =>
      let r := processBucketCalls m s old2new pool lastNodeIdx rest
      (r.1, r.2.1, c :: r.2.2)
    | some w =>
      let seqIds :=
        if (c.ids.getLast?.getD 0) != getLastStackId m c.call then
          subtractCallerIds s w.2 w.1
        else w.1
      if seqIds.isEmpty then
        let r := processBucketCalls m s old2new pool lastNodeIdx rest
        (r.1, r.2.1, c :: r.2.2)
      else
        let dup :=
          match rest with
          | [] => false
          | next :: _ => c.ids == next.ids
        if dup then
          let d := duplicateContextIds s seqIds old2new
          let r := processBucketCalls m d.1 d.2.2 pool lastNodeIdx rest
          (r.1, r.2.1, { c with savedContextIds := d.2.1 } :: r.2.2)
        else
          let pool' := idSub pool seqIds
          if pool'.isEmpty then
            (s, old2new, { c with savedContextIds := seqIds } :: rest)
          else
            let r := processBucketCalls m s old2new pool' lastNodeIdx rest
            (r.1, r.2.1, { c with savedContextIds := seqIds } :: r.2.2)

/-- The second phase of `updateStackNodes` for a single bucket: skip
single-call single-id buckets, stable-sort by descending length then
lexicographic ids, skip recursive last nodes, then run the per-call
loop starting from the last node's context ids. -/
def processBucket (m : ModuleIR)
    (acc : CCGState × List (Nat × IdSet))
    (b : Nat × List CallContextInfo) :
    (CCGState × List (Nat × IdSet)) × (Nat × List CallContextInfo) :=
  let s := acc.1
  let old2new := acc.2
  let skipSingle :=
    match b.2 with
    | [c] => c.ids.length == 1
    | _ => false
  if skipSingle then ((s, old2new), b)
  else
    let calls := stableSort callSortLt b.2
    match getNodeForStackId s b.1 with
    | none => ((s, old2new), (b.1, calls))
    | some lastNodeIdx =>
      if (getNode s lastNodeIdx).recursive then ((s, old2new), (b.1, calls))
      else
        let r := processBucketCalls m s old2new
          (getNode s lastNodeIdx).contextIds lastNodeIdx calls
        ((r.1, r.2.1), (b.1, r.2.2))

/-- `connectNewNode`: move the context ids the new node owns from the
original node's callee (or caller) edges onto fresh parallel edges of the
new node, pruning edges that drain. -/
def connectNewNode (s : CCGState) (newIdx origIdx : Nat)
    (towardsCallee : Bool) : CCGState :=
  let eis :=
    if towardsCallee then (getNode s origIdx).calleeEdges
    else (getNode s origIdx).callerEdges
  (eis.foldl
    (fun acc ei =>
      let s := acc.1
      let remaining := acc.2
      let edge := getEdge s ei
      let found := idInter edge.contextIds remaining
      let notFound := idSub remaining edge.contextIds
      if found.isEmpty then (s, remaining)
      else
        let s := updEdge s ei (fun e =>
          { e with contextIds := idSub e.contextIds remaining })
        let s :=
          if towardsCallee then
            let nei := s.edges.length
            let s := { s with edges := s.edges ++
              [⟨edge.callee, newIdx,
                computeAllocType s.contextIdToAllocationType found, found⟩] }
            let s := updNode s newIdx (fun n =>
              { n with calleeEdges := n.calleeEdges ++ [nei] })
            updNode s edge.callee (fun n =>
              { n with callerEdges := n.callerEdges ++ [nei] })
          else
            let nei := s.edges.length
            let s := { s with edges := s.edges ++
              [⟨newIdx, edge.caller,
                computeAllocType s.contextIdToAllocationType found, found⟩] }
            let s := updNode s newIdx (fun n =>
              { n with callerEdges := n.callerEdges ++ [nei] })
            updNode s edge.caller (fun n =>
              { n with calleeEdges := n.calleeEdges ++ [nei] })
        let s :=
          if (getEdge s ei).contextIds.isEmpty then
            if towardsCallee then
              eraseCalleeEdge (eraseCallerEdge s edge.callee ei) origIdx ei
            else
              eraseCallerEdge (eraseCalleeEdge s edge.caller ei) origIdx ei
          else s
        (s, notFound))
    (s, (getNode s newIdx).contextIds)).1

/-- The forward walk of the third phase: intersect a call's saved context
ids with the context ids on each callee edge linking consecutive nodes of
its stack-id sequence; empty when an edge is missing or the set drains. -/
def chainIntersect (s : CCGState) : List Nat → Nat → IdSet → IdSet
  | [], _, acc => acc
  | id :: rest, prev, acc =>
    match getNodeForStackId s id with
    | none => []
    | some cur =>
      match findEdgeFromCallee s cur prev with
      | none => []
      | some ei =>
        let acc := idInter acc (getEdge s ei).contextIds
        if acc.isEmpty then [] else chainIntersect s rest cur acc

/-- Create the interior context node for a reconciled (inlined) callsite,
registered in the non-allocation call map with the computed context ids
and their alloc-type union. -/
def createCallsiteNode (s : CCGState) (c : CallContextInfo) (saved : IdSet) :
    CCGState × Nat :=
  let idx := s.nodes.length
  let node : ContextNode :=
    { isAllocation := false, call := some (c.call, 0),
      contextIds := saved,
      allocTypes := computeAllocType s.contextIdToAllocationType saved }
  let s := { s with
    nodes := s.nodes ++ [node],
    nodeToCallingFunc := alistInsert s.nodeToCallingFunc idx c.func,
    nonAllocationCallToContextNodeMap :=
      s.nonAllocationCallToContextNodeMap ++ [((c.call, 0), idx)] }
  (s, idx)

/-- Remove the new node's context ids from every node of the inlined
sequence and from the chain edges between them, pruning drained edges. -/
def chainSubtract (saved : IdSet) :
    CCGState → List Nat → Option Nat → CCGState
  | s, [], _ => s
  | s, id :: rest, prevOpt =>
    match getNodeForStackId s id with
    | none => s
    | some cur =>
      let s := updNode s cur (fun n =>
        { n with contextIds := idSub n.contextIds saved })
      let s :=
        match prevOpt with
        | none => s
        | some prev =>
          match findEdgeFromCallee s cur prev with
          | none => s
          | some ei =>
            let s := updEdge s ei (fun e =>
              { e with contextIds := idSub e.contextIds saved })
            if (getEdge s ei).contextIds.isEmpty then
              eraseCalleeEdge (eraseCallerEdge s prev ei) cur ei
            else s
      chainSubtract saved s rest (some cur)

/-- The per-call loop of the third phase for one (non-simple) bucket:
recompute each call's context ids along its sequence, then synthesize a
new interior node for the inlined sequence, connect it toward callees of
the first node and callers of the last node, and subtract the moved ids
from the interior chain. -/
def assignNodeCalls (lastNodeIdx : Nat) :
    CCGState → List CallContextInfo → CCGState
  | s, [] => s
  | s, c :: rest =>
    if c.savedContextIds.isEmpty then assignNodeCalls lastNodeIdx s rest
    else
      match getNodeForStackId s (c.ids.headD 0) with
      | none => assignNodeCalls lastNodeIdx s rest
      | some firstIdx =>
        let saved := chainIntersect s (c.ids.drop 1) firstIdx
          (idInter c.savedContextIds (getNode s firstIdx).contextIds)
        if saved.isEmpty then assignNodeCalls lastNodeIdx s rest
        else
          let p := createCallsiteNode s c saved
          let s := connectNewNode p.1 p.2 firstIdx true
          let s := connectNewNode s p.2 lastNodeIdx false
          let s := chainSubtract saved s c.ids none
          assignNodeCalls lastNodeIdx s rest

/-- `assignStackNodesPostOrder`: DFS from the allocation nodes toward
callers; on unwind, bind a single-call single-id bucket's call directly to
the node (unless the node is recursive), and otherwise synthesize interior
nodes for each call of the bucket. -/
def assignStackNodesPostOrder (buckets : List (Nat × List CallContextInfo)) :
    Nat → CCGState → List Nat → Nat → CCGState × List Nat
  | 0, s, visited, _ => (s, visited)
  | fuel + 1, s, visited, nodeIdx =>
    if visited.contains nodeIdx then (s, visited)
    else
      let visited := visited ++ [nodeIdx]
      let callerSnapshot := (getNode s nodeIdx).callerEdges
      let r := callerSnapshot.foldl
        (fun acc ei =>
          assignStackNodesPostOrder buckets fuel acc.1 acc.2
            (getEdge acc.1 ei).caller)
        (s, visited)
      let s := r.1
      let visited := r.2
      let node := getNode s nodeIdx
      if node.isAllocation then (s, visited)
      else
        match alistGet? buckets node.origStackOrAllocId with
        | none => (s, visited)
        | some calls =>
          let simple :=
            match calls with
            | [c] => c.ids.length == 1
            | _ => false
          if simple then
            match calls with
            | [c] =>
              if node.recursive then (s, visited)
              else
                let s := updNode s nodeIdx (fun n =>
                  { n with call := some (c.call, 0) })
                let s := { s with
                  nonAllocationCallToContextNodeMap :=
                    s.nonAllocationCallToContextNodeMap ++
                      [((c.call, 0), nodeIdx)],
                  nodeToCallingFunc :=
                    alistInsert s.nodeToCallingFunc nodeIdx c.func }
                (s, visited)
            | _ => (s, visited)
          else
            match getNodeForStackId s node.origStackOrAllocId with
            | none => (s, visited)
            | some lastNodeIdx => (assignNodeCalls lastNodeIdx s calls, visited)

/-- `updateStackNodes`: index the callsites, compute (and where needed
duplicate) their context ids per bucket, propagate duplicated ids, then
assign stack nodes in post order from every allocation node. -/
def updateStackNodes (m : ModuleIR) (s : CCGState) : CCGState :=
  let buckets0 := collectMatchingCalls s m
  let r := buckets0.foldl
    (fun (acc : (CCGState × List (Nat × IdSet)) ×
        List (Nat × List CallContextInfo)) b =>
      let q := processBucket m acc.1 b
      (q.1, acc.2 ++ [q.2]))
    ((s, []), [])
  let s := propagateDuplicateContextIds r.1.1 r.1.2
  let buckets := r.2
  (s.allocationCallToContextNodeMap.foldl
    (fun acc p =>
      assignStackNodesPostOrder buckets (acc.1.nodes.length + 2) acc.1
        acc.2 p.2)
    (s, ([] : List Nat))).1

/-! ## Multi-target sanitizer (`handleCallsitesWithMultipleTargets`) -/

/-- The sanitizer's mismatch test for one interior node: some callee-edge
target has a call bound and the node's call (per the back-end's
`calleeMatchesFunc` oracle) does not match that target's calling
function. -/
def callsiteMismatch (matchFn : Call → Nat → Bool) (s : CCGState)
    (nodeIdx : Nat) : Bool :=
  let node := getNode s nodeIdx
  let call := (node.call.getD ((0, 0), 0)).1
  node.calleeEdges.any (fun ei =>
    let callee := (getEdge s ei).callee
    (getNode s callee).hasCall &&
      !matchFn call (alistGetD s.nodeToCallingFunc callee 0))

/-- One entry of the sanitizer's loop: on a mismatch, null the node's
call and erase its entry from the non-allocation call map. -/
def sanitizeStep (matchFn : Call → Nat → Bool) (s : CCGState)
    (p : CallInfo × Nat) : CCGState :=
  if callsiteMismatch matchFn s p.2 then
    let s := updNode s p.2 (fun n => { n with call := none })
    { s with
      nonAllocationCallToContextNodeMap :=
        s.nonAllocationCallToContextNodeMap.filter (fun q => q != p) }
  else s

/-- `handleCallsitesWithMultipleTargets`: for each interior callsite node,
if its call's static callee (per the back-end's `calleeMatchesFunc`
oracle) fails to match the calling function of some call-bearing callee
edge target, erase the node from the non-allocation call map and null its
call.  Every mismatch is handled locally; the pass is a total function
and surfaces nothing to the caller. -/
def handleCallsitesWithMultipleTargets (matchFn : Call → Nat → Bool)
    (s : CCGState) : CCGState :=
  s.nonAllocationCallToContextNodeMap.foldl (sanitizeStep matchFn) s

/-! ## The `ModuleCallsiteContextGraph` constructor -/

/-- The constructor's final pass: strip the (remaining) `!callsite`
metadata from every call recorded in `FuncToCallsWithMetadata`. -/
def stripRemainingCallsites (s : CCGState) (m : ModuleIR) : ModuleIR :=
  s.funcToCallsWithMetadata.foldl
    (fun m p =>
      p.2.foldl
        (fun m ci => setInstr m ci.1 (fun ins => { ins with callsite := none }))
        m)
    m

/-- `ModuleCallsiteContextGraph::ModuleCallsiteContextGraph`: scan the
module (building the graph and stripping allocation metadata), reconcile
stack nodes with callsites, sanitize multi-target callsites, and strip the
remaining callsite metadata.  Returns the graph and the mutated module. -/
def moduleCCGConstruct (matchFn : Call → Nat → Bool) (m0 : ModuleIR) :
    CCGState × ModuleIR :=
  let p := moduleScan m0
  let s := updateStackNodes p.2 p.1
  let s := handleCallsitesWithMultipleTargets matchFn s
  (s, stripRemainingCallsites s p.2)

/-! ## Cloner (`identifyClones`) -/

/-- `moveEdgeToExistingCalleeClone`: relink the caller edge onto the clone,
move its context ids from the old callee to the clone, recompute the old
callee's alloc types, and migrate the intersection of each old callee edge
onto a parallel edge of the clone (reusing an existing parallel edge when
the clone is not freshly created). -/
def moveEdgeToExistingCalleeClone (s : CCGState) (ei newCalleeIdx : Nat)
    (newClone : Bool) : CCGState :=
  let edge := getEdge s ei
  let edgeIds := edge.contextIds
  let oldCallee := edge.callee
  let s := eraseCallerEdge s oldCallee ei
  let s := updEdge s ei (fun e => { e with callee := newCalleeIdx })
  let s := updNode s newCalleeIdx (fun n =>
    { n with callerEdges := n.callerEdges ++ [ei] })
  let s := updNode s oldCallee (fun n =>
    { n with contextIds := idSub n.contextIds edgeIds })
  let s := updNode s newCalleeIdx (fun n =>
    { n with contextIds := idUnion n.contextIds edgeIds,
             allocTypes := n.allocTypes ||| edge.allocTypes })
  let s := updNode s oldCallee (fun n =>
    { n with allocTypes :=
        computeAllocType s.contextIdToAllocationType n.contextIds })
  (getNode s oldCallee).calleeEdges.foldl
    (fun s oei =>
      let oe := getEdge s oei
      let toMove := idInter oe.contextIds edgeIds
      let remaining := idSub oe.contextIds toMove
      let s := updEdge s oei (fun e =>
        { e with contextIds := remaining,
                 allocTypes :=
                   computeAllocType s.contextIdToAllocationType remaining })
      let reuse :=
        if !newClone then findEdgeFromCallee s newCalleeIdx oe.callee
        else none
      match reuse with
      | some nei =>
        updEdge s nei (fun e =>
          { e with contextIds := idUnion e.contextIds toMove,
                   allocTypes := e.allocTypes |||
                     computeAllocType s.contextIdToAllocationType toMove })
      | none =>
        let nei := s.edges.length
        let s := { s with edges := s.edges ++
          [⟨oe.callee, newCalleeIdx,
            computeAllocType s.contextIdToAllocationType toMove, toMove⟩] }
        let s := updNode s newCalleeIdx (fun n =>
          { n with calleeEdges := n.calleeEdges ++ [nei] })
        updNode s oe.callee (fun n =>
          { n with callerEdges := n.callerEdges ++ [nei] }))
    s

/-- `moveEdgeToNewCalleeClone`: materialize a fresh clone of the edge's
callee (same allocation flag and call, lineage recorded against the
canonical original, same calling function) and move the edge onto it. -/
def moveEdgeToNewCalleeClone (s : CCGState) (ei : Nat) : CCGState × Nat :=
  let nodeIdx := (getEdge s ei).callee
  let node := getNode s nodeIdx
  let cloneIdx := s.nodes.length
  let clone : ContextNode :=
    { isAllocation := node.isAllocation, call := node.call }
  let s := { s with nodes := s.nodes ++ [clone] }
  let s := addClone s nodeIdx cloneIdx
  let s := { s with
    nodeToCallingFunc :=
      alistInsert s.nodeToCallingFunc cloneIdx
        (alistGetD s.nodeToCallingFunc nodeIdx 0) }
  (moveEdgeToExistingCalleeClone s ei cloneIdx true, cloneIdx)

/-- `AllocTypeCloningPriority`: the cloner's sort priority, indexed by the
alloc-type mask (`{None = 3, NotCold = 4, Cold = 1, NotColdCold = 2}`);
lower priority is processed first, so `NotCold` caller edges are processed
last and stay on the original node. -/
def AllocTypeCloningPriority (t : Nat) : Nat :=
  match t with
  | 0 => 3
  | 1 => 4
  | 2 => 1
  | _ => 2

/-- The caller-edge comparator of `identifyClones`: priority over the
edges' alloc types, with the first context id of each edge (the least id,
in the canonical set representation) as tie-breaker for equal types. -/
def callerEdgeCmp (s : CCGState) (a b : Nat) : Bool :=
  let ea := getEdge s a
  let eb := getEdge s b
  if ea.allocTypes == eb.allocTypes then
    ea.contextIds.headD 0 < eb.contextIds.headD 0
  else
    AllocTypeCloningPriority ea.allocTypes <
      AllocTypeCloningPriority eb.allocTypes

/-- The caller-edge iteration of `identifyClones`: stop once the node has
a single alloc type or at most one caller edge; skip an edge when moving
it would disambiguate nothing (same used type and matching callee-edge
type vector); otherwise move it onto a matching existing clone or a fresh
one, staying at the same position since the moved edge left the list. -/
def cloneLoop : Nat → CCGState → Nat → Nat → CCGState
  | 0, s, _, _ => s
  | fuel + 1, s, nodeIdx, i =>
    let node := getNode s nodeIdx
    if i ≥ node.callerEdges.length then s
    else if hasSingleAllocType node.allocTypes ||
        node.callerEdges.length ≤ 1 then s
    else
      let ei := (node.callerEdges.get? i).getD 0
      let callerEdge := getEdge s ei
      let vec := node.calleeEdges.map (fun cei =>
        intersectAllocTypes s.contextIdToAllocationType
          (getEdge s cei).contextIds callerEdge.contextIds)
      if allocTypeToUse callerEdge.allocTypes ==
          allocTypeToUse node.allocTypes &&
          allocTypesMatch s vec node.calleeEdges then
        cloneLoop fuel s nodeIdx (i + 1)
      else
        let cloneOpt := node.clones.find? (fun ci =>
          allocTypeToUse (getNode s ci).allocTypes ==
              allocTypeToUse callerEdge.allocTypes &&
            allocTypesMatch s vec (getNode s ci).calleeEdges)
        let s :=
          match cloneOpt with
          | some ci => moveEdgeToExistingCalleeClone s ei ci false
          | none => (moveEdgeToNewCalleeClone s ei).1
        cloneLoop fuel s nodeIdx i

/-- The per-node cloning of `identifyClones` after its recursive caller
traversal: return unless the node has an ambiguous alloc type and more
than one caller edge; otherwise stable-sort the caller edges by cloning
priority and run the cloning loop, then drop `None`-type callee edges
from the clones and the node. -/
def cloneNodeIfNeeded (s : CCGState) (nodeIdx : Nat) : CCGState :=
  let node := getNode s nodeIdx
  if hasSingleAllocType node.allocTypes || node.callerEdges.length ≤ 1 then s
  else
    let s := updNode s nodeIdx (fun n =>
      { n with callerEdges := stableSort (callerEdgeCmp s) n.callerEdges })
    let s := cloneLoop ((getNode s nodeIdx).callerEdges.length + 1) s nodeIdx 0
    let s := (getNode s nodeIdx).clones.foldl
      (fun s ci => removeNoneTypeCalleeEdges s ci) s
    removeNoneTypeCalleeEdges s nodeIdx

/-- The recursive `identifyClones(Node, Visited)`: bail on nodes without a
call, mark visited, recurse to unvisited non-clone callers over a snapshot
of the caller edges, then clone this node as needed. -/
def identifyClonesNode : Nat → CCGState → List Nat → Nat → CCGState × List Nat
  | 0, s, visited, _ => (s, visited)
  | fuel + 1, s, visited, nodeIdx =>
    if !(getNode s nodeIdx).hasCall then (s, visited)
    else
      let visited := visited ++ [nodeIdx]
      let snapshot := (getNode s nodeIdx).callerEdges
      let r := snapshot.foldl
        (fun acc ei =>
          let caller := (getEdge acc.1 ei).caller
          if !acc.2.contains caller &&
              (getNode acc.1 caller).cloneOf == none then
            identifyClonesNode fuel acc.1 acc.2 caller
          else acc)
        (s, visited)
      (cloneNodeIfNeeded r.1 nodeIdx, r.2)

/-- `identifyClones`: run the recursive cloner from every allocation
node. -/
def identifyClones (s : CCGState) : CCGState :=
  (s.allocationCallToContextNodeMap.foldl
    (fun acc p =>
      identifyClonesNode (acc.1.nodes.length + 2) acc.1 acc.2 p.2)
    (s, ([] : List Nat))).1

/-! ## Function-clone planner (`assignFunctions`) -/

/-- A function clone handle: (original function id, clone number); clone 0
is the original.  This mirrors the summary back-end's `FuncInfo` exactly
and serves as the canonical handle for the IR back-end's cloned
`Function*` as well. -/
abbrev FuncInfo := Nat × Nat

/-- `CallMap`: original call (clone 0) to the corresponding call in a
particular function clone. -/
abbrev CallMap := List (CallInfo × CallInfo)

/-- Externally visible effects of the planner: function clones created,
and the final call updates. -/
inductive AEvent where
  | cloneFunc : Nat → Nat → AEvent
  | updateAlloc : CallInfo → Nat → AEvent
  | updateCall : CallInfo → FuncInfo → AEvent
deriving Repr, DecidableEq

/-- `getNodeForInst`: the node bound to a call, looked up first among
allocations and then among interior callsites. -/
def getNodeForInst (s : CCGState) (c : CallInfo) : Option Nat :=
  match cmapGet? s.allocationCallToContextNodeMap c with
  | some n => some n
  | none => cmapGet? s.nonAllocationCallToContextNodeMap c

/-- `ContextNode::getOrigNode`. -/
def getOrigNode (s : CCGState) (i : Nat) : Nat :=
  match (getNode s i).cloneOf with
  | some o => o
  | none => i

/-- The state threaded through the planner's worklist processing for one
original call: the graph, the cross-function callsite-to-function-clone
assignment, the emitted events, this function's clone-to-call map, the
per-call map from function clone to the chosen callsite clone, the
worklist of callsite clones, and the clone counter. -/
structure WLState where
  s : CCGState
  csMap : List (Nat × FuncInfo)
  events : List AEvent
  fcMap : List (FuncInfo × CallMap)
  fc2node : List (FuncInfo × Nat)
  worklist : List Nat
  nodeCloneCount : Nat
deriving Repr

/-- `AssignCallsiteCloneToFuncClone`: record the callsite clone against
the function clone and rebind the callsite clone's call to that function
clone's version of the call. -/
def assignCsClone (w : WLState) (funcClone : FuncInfo) (call : CallInfo)
    (cloneIdx : Nat) : WLState :=
  let fc2node := alistInsert w.fc2node funcClone cloneIdx
  let callMap := alistGetD w.fcMap funcClone []
  let callClone :=
    match alistGet? callMap call with
    | some cc => cc
    | none => call
  { w with
    s := updNode w.s cloneIdx (fun n => { n with call := some callClone }),
    fc2node := fc2node }

/-- `cloneFunctionForCallsite`: mint clone number `cloneNo` of the
original function, with a `CallMap` sending each recorded call (clone 0)
to its copy in the new function clone. -/
def cloneFunctionForCallsite (origFunc : FuncInfo) (calls : List CallInfo)
    (cloneNo : Nat) : FuncInfo × CallMap :=
  ((origFunc.1, cloneNo), calls.map (fun ci => (ci, (ci.1, cloneNo))))

/-- `RecordCalleeFuncOfCallsite`. -/
def recordCalleeFunc (w : WLState) (callerIdx : Nat) (fc : FuncInfo) :
    WLState :=
  { w with csMap := alistInsert w.csMap callerIdx fc }

/-- The mutual-reassignment step of the planner when a new function clone
is created and some caller was already assigned to `prevFC`: move those
callers to the new clone, and clone every other call-bearing callee of
such a caller that was assigned to `prevFC`, rebinding the new callsite
clones to the new function clone's calls. -/
def reassignCallers (cloneIdx : Nat) (newFuncClone : FuncInfo)
    (prevFC : FuncInfo) (w : WLState) : WLState :=
  (getNode w.s cloneIdx).callerEdges.foldl
    (fun w ce =>
      let caller := (getEdge w.s ce).caller
      if !(getNode w.s caller).hasCall then w
      else if alistGet? w.csMap caller != some prevFC then w
      else
        let w := recordCalleeFunc w caller newFuncClone
        (getNode w.s caller).calleeEdges.foldl
          (fun w calleeEdge =>
            let callee := (getEdge w.s calleeEdge).callee
            if callee == cloneIdx || !(getNode w.s callee).hasCall then w
            else
              let p := moveEdgeToNewCalleeClone w.s calleeEdge
              let s := removeNoneTypeCalleeEdges p.1 p.2
              let s := removeNoneTypeCalleeEdges s callee
              let w := { w with s := s }
              let w :=
                match alistGet? w.csMap callee with
                | some fc => recordCalleeFunc w p.2 fc
                | none => w
              let origCall : CallInfo :=
                (((getNode w.s (getOrigNode w.s callee)).call.getD
                  ((0, 0), 0)).1, 0)
              let callMap := alistGetD w.fcMap newFuncClone []
              match alistGet? callMap origCall with
              | some newCall =>
                { w with s := updNode w.s p.2 (fun n =>
                    { n with call := some newCall }) }
              | none => w)
          w)
    w

/-- The function-cloning phase for one popped callsite clone: when there
are fewer function clones than callsite clones, bind the first callsite
copy to the original function, or create a new function clone; returns
the updated state and whether the caller-edge loop is skipped (the
`continue` paths of the source). -/
def funcClonePhase (origFunc : FuncInfo) (calls : List CallInfo)
    (call : CallInfo) (cloneIdx : Nat) (w : WLState) : WLState × Bool :=
  if w.fcMap.length < w.nodeCloneCount then
    if w.nodeCloneCount == 1 then
      let w := { w with fcMap := w.fcMap ++ [(origFunc, [])] }
      let w := assignCsClone w origFunc call cloneIdx
      let w := (getNode w.s cloneIdx).callerEdges.foldl
        (fun w ce =>
          let caller := (getEdge w.s ce).caller
          if (getNode w.s caller).hasCall then
            recordCalleeFunc w caller origFunc
          else w)
        w
      (w, true)
    else
      let prevFC := ((getNode w.s cloneIdx).callerEdges.findSome?
        (fun ce => alistGet? w.csMap (getEdge w.s ce).caller))
      let cloneNo := w.fcMap.length
      let p := cloneFunctionForCallsite origFunc calls cloneNo
      let w := { w with
        fcMap := w.fcMap ++ [p],
        events := w.events ++ [AEvent.cloneFunc origFunc.1 cloneNo] }
      match prevFC with
      | none =>
        let w := assignCsClone w p.1 call cloneIdx
        let w := (getNode w.s cloneIdx).callerEdges.foldl
          (fun w ce =>
            let caller := (getEdge w.s ce).caller
            if (getNode w.s caller).hasCall then
              recordCalleeFunc w caller p.1
            else w)
          w
        (w, true)
      | some prevFC => (reassignCallers cloneIdx p.1 prevFC w, false)
  else (w, false)

/-- The caller-edge loop of the planner for one callsite clone: reuse the
function clone already called by an assigned caller when compatible, spin
off a new callsite clone when not, and assign unassigned callers to the
first function clone that has no callsite clone of this node yet. -/
def callerAssignLoop (call : CallInfo) (cloneIdx : Nat) :
    Nat → WLState → List (FuncInfo × Nat) → Option FuncInfo → Nat → WLState
  | 0, w, _, _, _ => w
  | fuel + 1, w, fcNew, fcAssigned, i =>
    let edges := (getNode w.s cloneIdx).callerEdges
    if i ≥ edges.length then w
    else
      let ei := (edges.get? i).getD 0
      let caller := (getEdge w.s ei).caller
      if !(getNode w.s caller).hasCall then
        callerAssignLoop call cloneIdx fuel w fcNew fcAssigned (i + 1)
      else
        match alistGet? w.csMap caller with
        | some fcc =>
          let conflict :=
            (match alistGet? w.fc2node fcc with
             | some n => n != cloneIdx
             | none => false) ||
            (match fcAssigned with
             | some fa => fa != fcc
             | none => false)
          if conflict then
            match alistGet? fcNew fcc with
            | some newCloneIdx =>
              let s := moveEdgeToExistingCalleeClone w.s ei newCloneIdx false
              let s := removeNoneTypeCalleeEdges s newCloneIdx
              let s := removeNoneTypeCalleeEdges s cloneIdx
              callerAssignLoop call cloneIdx fuel { w with s := s } fcNew
                fcAssigned i
            | none =>
              let p := moveEdgeToNewCalleeClone w.s ei
              let s := removeNoneTypeCalleeEdges p.1 p.2
              let s := removeNoneTypeCalleeEdges s cloneIdx
              let fcNew := alistInsert fcNew fcc p.2
              callerAssignLoop call cloneIdx fuel
                { w with s := s, worklist := w.worklist ++ [p.2] } fcNew
                fcAssigned i
          else
            match fcAssigned with
            | none =>
              let w := assignCsClone w fcc call cloneIdx
              callerAssignLoop call cloneIdx fuel w fcNew (some fcc) (i + 1)
            | some _ =>
              callerAssignLoop call cloneIdx fuel w fcNew fcAssigned (i + 1)
        | none =>
          match fcAssigned with
          | some fa =>
            let w := recordCalleeFunc w caller fa
            callerAssignLoop call cloneIdx fuel w fcNew fcAssigned (i + 1)
          | none =>
            match w.fcMap.find?
                (fun cf => (alistGet? w.fc2node cf.1).isNone) with
            | some cf =>
              let w := assignCsClone w cf.1 call cloneIdx
              let w := recordCalleeFunc w caller cf.1
              callerAssignLoop call cloneIdx fuel w fcNew (some cf.1) (i + 1)
            | none =>
              callerAssignLoop call cloneIdx fuel w fcNew fcAssigned (i + 1)

/-- The planner's worklist loop over the callsite clones of one original
call. -/
def processWorklist (origFunc : FuncInfo) (calls : List CallInfo)
    (call : CallInfo) : Nat → WLState → WLState
  | 0, w => w
  | fuel + 1, w =>
    match w.worklist with
    | [] => w
    | cloneIdx :: rest =>
      let w := { w with worklist := rest,
                        nodeCloneCount := w.nodeCloneCount + 1 }
      let p := funcClonePhase origFunc calls call cloneIdx w
      let w := p.1
      if p.2 then processWorklist origFunc calls call fuel w
      else
        let w := callerAssignLoop call cloneIdx
          ((getNode w.s cloneIdx).callerEdges.length + 1) w [] none 0
        processWorklist origFunc calls call fuel w

/-- Planner state across functions: graph, callsite-to-function-clone
assignment, events. -/
structure AssignState where
  s : CCGState
  csMap : List (Nat × FuncInfo)
  events : List AEvent
deriving Repr

/-- Handle one original call of a function in `assignFunctions`: skip
calls without a node or whose node has no clones; otherwise seed the
worklist with the node (when it still owns context ids) and its clones
and process it. -/
def assignCallOfFunc (origFunc : FuncInfo) (calls : List CallInfo)
    (acc : AssignState × List (FuncInfo × CallMap)) (call : CallInfo) :
    AssignState × List (FuncInfo × CallMap) :=
  let a := acc.1
  let fcMap := acc.2
  match getNodeForInst a.s call with
  | none => acc
  | some nodeIdx =>
    if (getNode a.s nodeIdx).clones.isEmpty then acc
    else
      let worklist :=
        (if (getNode a.s nodeIdx).contextIds.isEmpty then []
         else [nodeIdx]) ++ (getNode a.s nodeIdx).clones
      let w : WLState :=
        { s := a.s, csMap := a.csMap, events := a.events, fcMap := fcMap,
          fc2node := [], worklist := worklist, nodeCloneCount := 0 }
      let w := processWorklist origFunc calls call
        (w.s.nodes.length + w.s.edges.length + 10) w
      ({ s := w.s, csMap := w.csMap, events := w.events }, w.fcMap)

/-- The per-function loop of `assignFunctions` (before the final call
update). -/
def assignFunctionsMain (s : CCGState) : AssignState :=
  s.funcToCallsWithMetadata.foldl
    (fun a p =>
      (p.2.foldl (assignCallOfFunc (p.1, 0) p.2)
        (a, ([] : List (FuncInfo × CallMap)))).1)
    { s := s, csMap := [], events := [] }

/-- `UpdateCalls`: DFS from a node over its clones and callers, then emit
the final update for its bound call — `updateAllocationCall` with
`allocTypeToUse` of the node's alloc types for allocations, and
`updateCall` with the assigned function clone for interior callsites. -/
def updateCallsNode (s : CCGState) (csMap : List (Nat × FuncInfo)) :
    Nat → List Nat → List AEvent → Nat → List Nat × List AEvent
  | 0, visited, events, _ => (visited, events)
  | fuel + 1, visited, events, nodeIdx =>
    if visited.contains nodeIdx then (visited, events)
    else
      let visited := visited ++ [nodeIdx]
      let r := (getNode s nodeIdx).clones.foldl
        (fun acc c => updateCallsNode s csMap fuel acc.1 acc.2 c)
        (visited, events)
      let r := (getNode s nodeIdx).callerEdges.foldl
        (fun acc ei =>
          updateCallsNode s csMap fuel acc.1 acc.2 (getEdge s ei).caller)
        r
      let visited := r.1
      let events := r.2
      let node := getNode s nodeIdx
      if !node.hasCall || node.contextIds.isEmpty then (visited, events)
      else if node.isAllocation then
        (visited, events ++ [AEvent.updateAlloc (node.call.getD ((0, 0), 0))
          (allocTypeToUse node.allocTypes)])
      else
        match alistGet? csMap nodeIdx with
        | none => (visited, events)
        | some fc =>
          (visited,
            events ++ [AEvent.updateCall (node.call.getD ((0, 0), 0)) fc])

/-- The final pass of `assignFunctions`: update the calls by DFS from
every allocation node. -/
def updateCallsAll (s : CCGState) (csMap : List (Nat × FuncInfo))
    (events : List AEvent) : List AEvent :=
  (s.allocationCallToContextNodeMap.foldl
    (fun acc p =>
      updateCallsNode s csMap (s.nodes.length + 2) acc.1 acc.2 p.2)
    (([] : List Nat), events)).2

/-- `assignFunctions`: assign callsite clones to function clones (cloning
functions as needed), then update all calls.  Returns the final graph and
the emitted events. -/
def assignFunctions (s : CCGState) : CCGState × List AEvent :=
  let a := assignFunctionsMain s
  (a.s, updateCallsAll a.s a.csMap a.events)

/-! ## The full pipeline (`process`) -/

/-- `CallsiteContextGraph::process` on an IR module: construct the graph
(which itself mutates the module's metadata), identify clones, and assign
functions. -/
def processModule (matchFn : Call → Nat → Bool) (m0 : ModuleIR) :
    CCGState × ModuleIR × List AEvent :=
  let p := moduleCCGConstruct matchFn m0
  let s := identifyClones p.1
  let r := assignFunctions s
  (r.1, p.2, r.2)

/-! ## Function-clone naming -/

/-- `MemProfCloneSuffix`. -/
def MemProfCloneSuffix : String := ".memprof."

/-- `getMemProfFuncName`: clone 0 keeps the base name; clone `N ≥ 1` gets
the suffix `.memprof.<N>`. -/
def getMemProfFuncName (base : String) (cloneNo : Nat) : String :=
  if cloneNo = 0 then base
  else base ++ MemProfCloneSuffix ++ toString cloneNo

/-! ## Concrete inputs -/

/-- Whether node `t` is the target of some callee edge of node `n`. -/
def isCalleeTarget (s : CCGState) (n t : Nat) : Bool :=
  (getNode s n).calleeEdges.any (fun ei => (getEdge s ei).callee == t)

/-- Spec scenario 1: one function with a single allocation call carrying
one MIB `(stack = [100], Cold)` and no callsite metadata. -/
def scenario1Module : ModuleIR :=
  [[{ isCall := true, memprof := some [([100], 2)], callsite := none }]]

/-- A module whose reconciliation leaves a live node with stale alloc
types: two allocations (`([8,9], Cold)` and `([8], NotCold)`) and an
inlined callsite spanning `[8,9]`.  Reconciliation moves context id 1 to a
synthesized node and drains it from node 8, whose `AllocTypes` mask is
never recomputed. -/
def staleTypesModule : ModuleIR :=
  [[{ isCall := true, memprof := some [([8, 9], 2)], callsite := none },
    { isCall := true, memprof := some [([8], 1)], callsite := none },
    { isCall := true, memprof := none, callsite := some [8, 9] }]]

/-- Spec scenario 2: an allocation with a Cold and a NotCold context
through a common caller callsite in another function; the node for stack
id 10 carries the mixed mask `NotCold|Cold` and two caller edges. -/
def mixedCloneModule : ModuleIR :=
  [[{ isCall := true, memprof := some [([10, 20], 2), ([10, 30], 1)],
      callsite := none }],
   [{ isCall := true, memprof := none, callsite := some [10] }]]

/-- Two distinct callsites whose stack-id sequences `[1,9]` and `[2,9]`
share the same last (outermost) stack id 9 but differ as sequences. -/
def sharedLastIdModule : ModuleIR :=
  [[{ isCall := true, memprof := some [([1, 9], 2), ([2, 9], 1)],
      callsite := none },
    { isCall := true, memprof := none, callsite := some [1, 9] },
    { isCall := true, memprof := none, callsite := some [2, 9] }]]

/-- Spec scenario 4: two distinct callsites with identical stack-id
sequences `[5,6]`. -/
def duplicateSeqModule : ModuleIR :=
  [[{ isCall := true, memprof := some [([5, 6], 2)], callsite := none },
    { isCall := true, memprof := none, callsite := some [5, 6] },
    { isCall := true, memprof := none, callsite := some [5, 6] }]]

/-- The graph of `mixedCloneModule` just before the multi-target
sanitizer runs (scan and reconciliation done). -/
def preSanitizeState : CCGState :=
  updateStackNodes (moduleScan mixedCloneModule).2
    (moduleScan mixedCloneModule).1

/-! ## Invariant predicates -/

/-- Invariant N2 for a single node: its alloc-type mask equals the union
of the recorded alloc types of its context ids. -/
def nodeTypesInv (mp : List (Nat × Nat)) (n : ContextNode) : Prop :=
  n.allocTypes = computeAllocType mp n.contextIds

/-- All context ids of a node are bounded by the last minted id. -/
def nodeIdsBound (k : Nat) (n : ContextNode) : Prop :=
  ∀ id ∈ n.contextIds, id ≤ k

/-- Build-phase invariant: every node satisfies N2 and id-boundedness. -/
def buildInv (s : CCGState) : Prop :=
  ∀ n ∈ s.nodes, nodeTypesInv s.contextIdToAllocationType n ∧
    nodeIdsBound s.lastContextId n

/-! ## Supporting lemmas -/

theorem foldl_preserves {α β : Type} (P : β → Prop) (f : β → α → β)
    (l : List α) (b : β) (hb : P b) (hf : ∀ b a, P b → P (f b a)) :
    P (l.foldl f b) := by
  induction l generalizing b with
  | nil => exact hb
  | cons a l ih => exact ih (f b a) (hf b a hb)

theorem mem_idInsert {x y : Nat} {s : IdSet} :
    y ∈ idInsert x s ↔ y = x ∨ y ∈ s := by
  induction s with
  | nil => simp [idInsert]
  | cons a s ih =>
    by_cases h1 : x < a
    · simp [idInsert, h1]
    · by_cases h2 : x = a
      · subst h2
        simp only [idInsert, if_neg h1, if_pos rfl]
        constructor
        · intro h; exact Or.inr h
        · rintro (rfl | h) <;> simp_all
      · simp only [idInsert, if_neg h1, if_neg h2, List.mem_cons, ih]
        tauto

theorem mem_idUnion {y : Nat} {s t : IdSet} :
    y ∈ idUnion s t ↔ y ∈ s ∨ y ∈ t := by
  induction s generalizing t with
  | nil => simp [idUnion]
  | cons a s ih =>
    show y ∈ List.foldl _ (idInsert a t) s ↔ _
    rw [show List.foldl (fun acc x => idInsert x acc) (idInsert a t) s =
      idUnion s (idInsert a t) from rfl, ih, mem_idInsert]
    simp [List.mem_cons]
    tauto

theorem mem_idInter {y : Nat} {s t : IdSet} :
    y ∈ idInter s t ↔ y ∈ s ∧ y ∈ t := by
  simp [idInter, List.mem_filter, List.elem_iff]

theorem mem_idSub {y : Nat} {s t : IdSet} :
    y ∈ idSub s t ↔ y ∈ s ∧ y ∉ t := by
  simp [idSub, List.mem_filter, List.elem_iff]

theorem allocTypeToUse_ne_three (m : Nat) : allocTypeToUse m ≠ 3 := by
  unfold allocTypeToUse
  split
  · decide
  · next h => exact h

/-! ## C9: function-clone naming -/

/-- C9: For every base symbol name and every clone number `N`, the naming
scheme yields the base name unchanged for `N = 0` and the base name
suffixed with `.memprof.<N>` for `N ≥ 1`. -/
theorem C9_memprof_clone_naming :
    (∀ base : String, getMemProfFuncName base 0 = base) ∧
    ∀ (base : String) (n : Nat), 1 ≤ n →
      getMemProfFuncName base n = base ++ ".memprof." ++ toString n := by
  constructor
  · intro base; rfl
  · intro base n hn
    unfold getMemProfFuncName MemProfCloneSuffix
    rw [if_neg (by omega)]

/-- Witness for C9 at base `"foo"`, clone numbers 0 and 3. -/
theorem C9_witness :
    getMemProfFuncName "foo" 0 = "foo" ∧
    (1 ≤ 3 ∧ getMemProfFuncName "foo" 3 = "foo" ++ ".memprof." ++ toString 3) :=
  ⟨C9_memprof_clone_naming.1 "foo",
    ⟨by decide, C9_memprof_clone_naming.2 "foo" 3 (by decide)⟩⟩

/-! ## C4: when the cloner refrains from cloning -/

/-- C4 (amended): during `identifyClones`, no cloning is performed at a
visited bound node when its alloc-type mask has exactly one bit set
(exactly NotCold or exactly Cold — a mixed `NotCold|Cold` mask does *not*
count as single, even though the use-policy would collapse it), or when
the node has at most one caller edge. -/
theorem C4_amended_no_cloning_when_single_bit_or_single_caller
    (s : CCGState) (nodeIdx : Nat)
    (h : hasSingleAllocType (getNode s nodeIdx).allocTypes = true ∨
      (getNode s nodeIdx).callerEdges.length ≤ 1) :
    cloneNodeIfNeeded s nodeIdx = s := by
  unfold cloneNodeIfNeeded
  simp only []
  rw [if_pos]
  rcases h with h | h
  · simp [h]
  · simp [h]

/-- Witness for the amended C4: the scenario-1 graph's allocation node has
a single (Cold) alloc type, so the cloner leaves the state unchanged. -/
theorem C4_amended_witness :
    (hasSingleAllocType
        (getNode (moduleCCGConstruct (fun _ _ => true) scenario1Module).1
          0).allocTypes = true ∨
      (getNode (moduleCCGConstruct (fun _ _ => true) scenario1Module).1
          0).callerEdges.length ≤ 1) ∧
    cloneNodeIfNeeded (moduleCCGConstruct (fun _ _ => true) scenario1Module).1
        0 =
      (moduleCCGConstruct (fun _ _ => true) scenario1Module).1 :=
  ⟨Or.inl (by decide),
    C4_amended_no_cloning_when_single_bit_or_single_caller _ 0
      (Or.inl (by decide))⟩

/-- Counterexample to C4 as stated: in the scenario-2 graph the node for
stack id 10 is bound, carries the mixed mask `NotCold|Cold` (which the
use-policy treats as NotCold, so the claim says the cloner must stop) and
has two caller edges — yet `identifyClones` does clone it. -/
theorem C4_counterexample_mixed_node_cloned :
    getNodeForStackId (moduleCCGConstruct (fun _ _ => true) mixedCloneModule).1
        10 = some 1 ∧
    (getNode (moduleCCGConstruct (fun _ _ => true) mixedCloneModule).1
        1).hasCall = true ∧
    (getNode (moduleCCGConstruct (fun _ _ => true) mixedCloneModule).1
        1).allocTypes = (AllocTypeNotCold ||| AllocTypeCold) ∧
    allocTypeToUse
        (getNode (moduleCCGConstruct (fun _ _ => true) mixedCloneModule).1
          1).allocTypes = AllocTypeNotCold ∧
    (getNode (moduleCCGConstruct (fun _ _ => true) mixedCloneModule).1
        1).callerEdges.length = 2 ∧
    (getNode (moduleCCGConstruct (fun _ _ => true) mixedCloneModule).1
        1).clones = [] ∧
    (getNode
        (identifyClones (moduleCCGConstruct (fun _ _ => true) mixedCloneModule).1)
        1).clones = [4] := by
  decide

/-! ## C6: scenario 1, the trivial cold allocation -/

/-- C6: On the scenario-1 input (one allocation call with a single MIB
`(stack = [100], Cold)`), the pipeline produces exactly one allocation
node with ContextIds `{1}` and AllocTypes Cold, one stack node for id 100
with ContextIds `{1}`, one edge carrying context id 1 with type Cold, and
emits exactly one `update_allocation_call` (with Cold) and no function
clones. -/
theorem C6_trivial_cold_alloc_scenario :
    ((processModule (fun _ _ => true) scenario1Module).1.nodes.filter
        (·.isAllocation)).length = 1 ∧
    (getNode (processModule (fun _ _ => true) scenario1Module).1
        0).isAllocation = true ∧
    (getNode (processModule (fun _ _ => true) scenario1Module).1
        0).contextIds = [1] ∧
    (getNode (processModule (fun _ _ => true) scenario1Module).1
        0).allocTypes = AllocTypeCold ∧
    ((processModule (fun _ _ => true) scenario1Module).1.nodes.filter
        (fun n => !n.isAllocation)).length = 1 ∧
    getNodeForStackId (processModule (fun _ _ => true) scenario1Module).1
        100 = some 1 ∧
    (getNode (processModule (fun _ _ => true) scenario1Module).1
        1).contextIds = [1] ∧
    (processModule (fun _ _ => true) scenario1Module).1.edges =
      [⟨0, 1, AllocTypeCold, [1]⟩] ∧
    (processModule (fun _ _ => true) scenario1Module).2.2 =
      [AEvent.updateAlloc ((0, 0), 0) AllocTypeCold] := by
  decide

/-! ## C1: node alloc types versus the union over context ids -/

/-- Counterexample to C1: after stack-node reconciliation on
`staleTypesModule`, the node for stack id 8 is live (ContextIds `{2}`)
but still carries the mask `NotCold|Cold` from before reconciliation,
while the union of its context ids' alloc types is NotCold — and the
discrepancy persists through cloning and function assignment. -/
theorem C1_counterexample_stale_alloc_types :
    (getNode (moduleCCGConstruct (fun _ _ => true) staleTypesModule).1
        1).isRemoved = false ∧
    (getNode (moduleCCGConstruct (fun _ _ => true) staleTypesModule).1
        1).contextIds = [2] ∧
    (getNode (moduleCCGConstruct (fun _ _ => true) staleTypesModule).1
        1).allocTypes = (AllocTypeNotCold ||| AllocTypeCold) ∧
    computeAllocType
        (moduleCCGConstruct (fun _ _ => true) staleTypesModule).1.contextIdToAllocationType
        (getNode (moduleCCGConstruct (fun _ _ => true) staleTypesModule).1
          1).contextIds = AllocTypeNotCold ∧
    (getNode (processModule (fun _ _ => true) staleTypesModule).1
        1).isRemoved = false ∧
    (getNode (processModule (fun _ _ => true) staleTypesModule).1
        1).allocTypes ≠
      computeAllocType
        (processModule (fun _ _ => true) staleTypesModule).1.contextIdToAllocationType
        (getNode (processModule (fun _ _ => true) staleTypesModule).1
          1).contextIds := by
  decide

/-! ## C7: when context-id duplication is triggered -/

/-- Counterexample to C7 as stated: the two callsites of
`sharedLastIdModule` have sequences `[1,9]` and `[2,9]` sharing the same
last (outermost) stack id 9 and land in the same reconciliation bucket,
yet no context-id duplication is triggered: reconciliation mints no new
context ids. -/
theorem C7_counterexample_shared_last_id_no_duplication :
    (collectMatchingCalls (moduleScan sharedLastIdModule).1
        (moduleScan sharedLastIdModule).2).map Prod.fst = [9] ∧
    ((collectMatchingCalls (moduleScan sharedLastIdModule).1
        (moduleScan sharedLastIdModule).2).map
      (fun b => b.2.map CallContextInfo.ids)) = [[[1, 9], [2, 9]]] ∧
    (moduleScan sharedLastIdModule).1.lastContextId = 2 ∧
    (updateStackNodes (moduleScan sharedLastIdModule).2
        (moduleScan sharedLastIdModule).1).lastContextId = 2 ∧
    (updateStackNodes (moduleScan sharedLastIdModule).2
        (moduleScan sharedLastIdModule).1).contextIdToAllocationType =
      [(2, 1), (1, 2)] := by
  decide

/-! ## C3: the use-policy and the values surfaced on allocations -/

theorem getNode_mem_of_hasCall (s : CCGState) (i : Nat)
    (h : (getNode s i).hasCall = true) : getNode s i ∈ s.nodes := by
  cases hg : s.nodes.get? i with
  | some n =>
    have he : getNode s i = n := by unfold getNode; rw [hg]; rfl
    rw [he]
    exact List.get?_mem hg
  | none =>
    have he : getNode s i = default := by unfold getNode; rw [hg]; rfl
    rw [he] at h
    exact absurd h (by decide)

theorem foldl_events_spec {α : Type} (P : Prop) (e : AEvent)
    (g : (List Nat × List AEvent) → α → (List Nat × List AEvent))
    (l : List α)
    (hg : ∀ acc x, e ∈ (g acc x).2 → e ∈ acc.2 ∨ P) :
    ∀ acc, e ∈ (l.foldl g acc).2 → e ∈ acc.2 ∨ P := by
  induction l with
  | nil => intro acc h; exact Or.inl h
  | cons a l ih =>
    intro acc h
    rcases ih (g acc a) h with h' | h'
    · exact hg acc a h'
    · exact Or.inr h'

theorem updateCallsNode_alloc_events (s : CCGState)
    (csMap : List (Nat × FuncInfo)) :
    ∀ (fuel : Nat) (visited : List Nat) (events : List AEvent)
      (nodeIdx : Nat) (c : CallInfo) (t : Nat),
      AEvent.updateAlloc c t ∈
        (updateCallsNode s csMap fuel visited events nodeIdx).2 →
      AEvent.updateAlloc c t ∈ events ∨
        ∃ n, n ∈ s.nodes ∧ n.isAllocation = true ∧ n.call = some c ∧
          t = allocTypeToUse n.allocTypes ∧ t ≠ 3 := by
  intro fuel
  induction fuel with
  | zero => intro visited events nodeIdx c t h; exact Or.inl h
  | succ fuel ih =>
    intro visited events nodeIdx c t h
    rw [updateCallsNode] at h
    by_cases hv : visited.contains nodeIdx
    · rw [if_pos hv] at h
      exact Or.inl h
    rw [if_neg hv] at h
    set P : Prop :=
      ∃ n, n ∈ s.nodes ∧ n.isAllocation = true ∧ n.call = some c ∧
        t = allocTypeToUse n.allocTypes ∧ t ≠ 3 with hP
    revert h
    set r1 := (getNode s nodeIdx).clones.foldl
      (fun acc c' => updateCallsNode s csMap fuel acc.1 acc.2 c')
      (visited ++ [nodeIdx], events) with hr1
    set r2 := (getNode s nodeIdx).callerEdges.foldl
      (fun acc ei =>
        updateCallsNode s csMap fuel acc.1 acc.2 (getEdge s ei).caller)
      r1 with hr2
    have htrans : AEvent.updateAlloc c t ∈ r2.2 →
        AEvent.updateAlloc c t ∈ events ∨ P := by
      intro h2
      rcases foldl_events_spec P (AEvent.updateAlloc c t) _ _
          (fun acc x hx => ih acc.1 acc.2 _ c t hx) r1 h2 with h1 | h1
      · exact foldl_events_spec P (AEvent.updateAlloc c t) _ _
          (fun acc x hx => ih acc.1 acc.2 x c t hx) _ h1
      · exact Or.inr h1
    intro h
    by_cases hcall : !(getNode s nodeIdx).hasCall ||
        (getNode s nodeIdx).contextIds.isEmpty
    · rw [if_pos hcall] at h
      exact htrans h
    rw [if_neg hcall] at h
    have hhas : (getNode s nodeIdx).hasCall = true := by
      rcases Bool.not_eq_true _ ▸ hcall with _
      by_contra hc
      simp [Bool.not_eq_true] at hc
      simp [hc] at hcall
    by_cases halloc : (getNode s nodeIdx).isAllocation
    · rw [if_pos halloc] at h
      rcases List.mem_append.mp h with h' | h'
      · exact htrans h'
      · simp only [List.mem_singleton, AEvent.updateAlloc.injEq] at h'
        obtain ⟨hc', ht'⟩ := h'
        subst hc'
        subst ht'
        refine Or.inr ⟨getNode s nodeIdx, getNode_mem_of_hasCall s nodeIdx hhas,
          halloc, ?_, rfl, allocTypeToUse_ne_three _⟩
        cases hcc : (getNode s nodeIdx).call with
        | some ci => simp [hcc]
        | none =>
          exact absurd hhas (by simp [ContextNode.hasCall, hcc])
    · rw [if_neg halloc] at h
      cases hcs : alistGet? csMap nodeIdx with
      | none => rw [hcs] at h; exact htrans h
      | some fc =>
        rw [hcs] at h
        rcases List.mem_append.mp h with h' | h'
        · exact htrans h'
        · simp at h'

/-- C3: for every mask other than None the use-policy returns NotCold on
the mixed mask `NotCold|Cold` and the mask itself otherwise; and every
allocation update emitted by the planner's final `UpdateCalls` traversal
carries `allocTypeToUse` of its node's alloc types, so the mixed mask 3
is never surfaced. -/
theorem C3_use_policy_and_allocation_updates :
    (∀ m : Nat, m ≠ AllocTypeNone →
      allocTypeToUse m = if m = 3 then AllocTypeNotCold else m) ∧
    ∀ (s : CCGState) (csMap : List (Nat × FuncInfo)) (fuel : Nat)
      (visited : List Nat) (events : List AEvent) (nodeIdx : Nat)
      (c : CallInfo) (t : Nat),
      AEvent.updateAlloc c t ∈
        (updateCallsNode s csMap fuel visited events nodeIdx).2 →
      AEvent.updateAlloc c t ∈ events ∨
        ∃ n, n ∈ s.nodes ∧ n.isAllocation = true ∧ n.call = some c ∧
          t = allocTypeToUse n.allocTypes ∧ t ≠ 3 := by
  constructor
  · intro m _
    rfl
  · exact updateCallsNode_alloc_events

/-- Witness for C3: the mixed mask collapses to NotCold, and the
scenario-1 pipeline's single emission is covered by the theorem. -/
theorem C3_witness :
    ((3 : Nat) ≠ AllocTypeNone ∧
      allocTypeToUse 3 = if (3 : Nat) = 3 then AllocTypeNotCold else 3) ∧
    (AEvent.updateAlloc ((0, 0), 0) 2 ∈
        (updateCallsNode (moduleCCGConstruct (fun _ _ => true) scenario1Module).1
          [] 2 [] [] 0).2 ∧
      (AEvent.updateAlloc ((0, 0), 0) 2 ∈ ([] : List AEvent) ∨
        ∃ n, n ∈ (moduleCCGConstruct (fun _ _ => true) scenario1Module).1.nodes ∧
          n.isAllocation = true ∧ n.call = some ((0, 0), 0) ∧
          2 = allocTypeToUse n.allocTypes ∧ 2 ≠ 3)) :=
  ⟨⟨by decide, C3_use_policy_and_allocation_updates.1 3 (by decide)⟩,
    ⟨by decide,
      C3_use_policy_and_allocation_updates.2
        (moduleCCGConstruct (fun _ _ => true) scenario1Module).1 [] 2 [] [] 0
        ((0, 0), 0) 2 (by decide)⟩⟩

/-! ## C5: the cloner's caller-edge processing order -/

theorem prio_inj (x y : Nat) (hx : x ≤ 3) (hy : y ≤ 3)
    (h : AllocTypeCloningPriority x = AllocTypeCloningPriority y) : x = y := by
  interval_cases x <;> interval_cases y <;> revert h <;> decide

theorem mem_stableInsert {α : Type} (lt : α → α → Bool) (x z : α)
    (l : List α) : z ∈ stableInsert lt x l ↔ z = x ∨ z ∈ l := by
  induction l with
  | nil => simp [stableInsert]
  | cons y ys ih =>
    by_cases h : lt y x
    · simp only [stableInsert, if_pos h, List.mem_cons, ih]
      tauto
    · simp only [stableInsert, if_neg h, List.mem_cons]

theorem stableInsert_perm {α : Type} (lt : α → α → Bool) (x : α)
    (l : List α) : List.Perm (stableInsert lt x l) (x :: l) := by
  induction l with
  | nil => simp [stableInsert]
  | cons y ys ih =>
    by_cases h : lt y x
    · simp only [stableInsert, if_pos h]
      exact (ih.cons y).trans (List.Perm.swap x y ys)
    · simp [stableInsert, if_neg h]

theorem stableSort_perm {α : Type} (lt : α → α → Bool) (l : List α) :
    List.Perm (stableSort lt l) l := by
  induction l with
  | nil => simp [stableSort]
  | cons x xs ih =>
    exact (stableInsert_perm lt x (stableSort lt xs)).trans (ih.cons x)

theorem stableInsert_pairwise {α : Type} (lt : α → α → Bool) (x : α)
    (ys : List α)
    (hasym : ∀ a b, lt a b = true → lt b a = false)
    (hnt : ∀ a b c, a ∈ x :: ys → b ∈ x :: ys → c ∈ x :: ys →
      lt b a = false → lt c b = false → lt c a = false)
    (hp : List.Pairwise (fun a b => lt b a = false) ys) :
    List.Pairwise (fun a b => lt b a = false) (stableInsert lt x ys) := by
  induction ys with
  | nil => simp [stableInsert]
  | cons y ys ih =>
    rcases List.pairwise_cons.mp hp with ⟨hy, hp'⟩
    by_cases h : lt y x
    · simp only [stableInsert, if_pos h]
      refine List.pairwise_cons.mpr ⟨?_, ?_⟩
      · intro z hz
        rcases (mem_stableInsert lt x z ys).mp hz with rfl | hz'
        · exact hasym y z h
        · exact hy z hz'
      · refine ih ?_ hp'
        intro a b c ha hb hc
        have sub : ∀ w, w ∈ x :: ys → w ∈ x :: y :: ys := by
          intro w hw
          rcases List.mem_cons.mp hw with rfl | hw'
          · exact List.mem_cons_self _ _
          · exact List.mem_cons_of_mem _ (List.mem_cons_of_mem _ hw')
        exact hnt a b c (sub a ha) (sub b hb) (sub c hc)
    · simp only [stableInsert, if_neg h]
      refine List.pairwise_cons.mpr ⟨?_, hp⟩
      intro z hz
      rcases List.mem_cons.mp hz with rfl | hz'
      · exact Bool.not_eq_true _ ▸ (by simpa using h)
      · exact hnt x y z (List.mem_cons_self _ _)
          (List.mem_cons_of_mem _ (List.mem_cons_self _ _))
          (List.mem_cons_of_mem _ (List.mem_cons_of_mem _ hz'))
          (by simpa using h) (hy z hz')

theorem stableSort_mem {α : Type} (lt : α → α → Bool) (l : List α) :
    ∀ z, z ∈ stableSort lt l ↔ z ∈ l :=
  fun _ => (stableSort_perm lt l).mem_iff

theorem stableSort_pairwise {α : Type} (lt : α → α → Bool) (l : List α)
    (hasym : ∀ a b, lt a b = true → lt b a = false)
    (hnt : ∀ a b c, a ∈ l → b ∈ l → c ∈ l →
      lt b a = false → lt c b = false → lt c a = false) :
    List.Pairwise (fun a b => lt b a = false) (stableSort lt l) := by
  induction l with
  | nil => simp [stableSort]
  | cons x xs ih =>
    show List.Pairwise _ (stableInsert lt x (stableSort lt xs))
    refine stableInsert_pairwise lt x (stableSort lt xs) hasym ?_ ?_
    · intro a b c ha hb hc
      have sub : ∀ w, w ∈ x :: stableSort lt xs → w ∈ x :: xs := by
        intro w hw
        rcases List.mem_cons.mp hw with rfl | hw'
        · exact List.mem_cons_self _ _
        · exact List.mem_cons_of_mem _ ((stableSort_mem lt xs w).mp hw')
      exact hnt a b c (sub a ha) (sub b hb) (sub c hc)
    · refine ih ?_
      intro a b c ha hb hc
      exact hnt a b c (List.mem_cons_of_mem _ ha) (List.mem_cons_of_mem _ hb)
        (List.mem_cons_of_mem _ hc)

theorem callerEdgeCmp_asym (s : CCGState) (a b : Nat)
    (h : callerEdgeCmp s a b = true) : callerEdgeCmp s b a = false := by
  unfold callerEdgeCmp at *
  by_cases he : (getEdge s a).allocTypes = (getEdge s b).allocTypes
  · simp [he] at h ⊢
    omega
  · have he' : ¬ (getEdge s b).allocTypes = (getEdge s a).allocTypes :=
      fun hh => he hh.symm
    simp [he, he'] at h ⊢
    omega

theorem callerEdgeCmp_false_iff (s : CCGState) (a b : Nat)
    (ha : (getEdge s a).allocTypes ≤ 3) (hb : (getEdge s b).allocTypes ≤ 3) :
    callerEdgeCmp s a b = false ↔
      (AllocTypeCloningPriority (getEdge s b).allocTypes <
          AllocTypeCloningPriority (getEdge s a).allocTypes ∨
        ((getEdge s a).allocTypes = (getEdge s b).allocTypes ∧
          (getEdge s b).contextIds.headD 0 ≤
            (getEdge s a).contextIds.headD 0)) := by
  unfold callerEdgeCmp
  by_cases he : (getEdge s a).allocTypes = (getEdge s b).allocTypes
  · rw [he]
    simp
    omega
  · have hne : AllocTypeCloningPriority (getEdge s a).allocTypes ≠
        AllocTypeCloningPriority (getEdge s b).allocTypes :=
      fun hh => he (prio_inj _ _ ha hb hh)
    simp [he]
    omega

theorem callerEdgeCmp_true_iff (s : CCGState) (a b : Nat)
    (ha : (getEdge s a).allocTypes ≤ 3) (hb : (getEdge s b).allocTypes ≤ 3) :
    callerEdgeCmp s a b = true ↔
      (AllocTypeCloningPriority (getEdge s a).allocTypes <
          AllocTypeCloningPriority (getEdge s b).allocTypes ∨
        ((getEdge s a).allocTypes = (getEdge s b).allocTypes ∧
          (getEdge s a).contextIds.headD 0 <
            (getEdge s b).contextIds.headD 0)) := by
  unfold callerEdgeCmp
  by_cases he : (getEdge s a).allocTypes = (getEdge s b).allocTypes
  · rw [he]
    simp
    omega
  · have hne : AllocTypeCloningPriority (getEdge s a).allocTypes ≠
        AllocTypeCloningPriority (getEdge s b).allocTypes :=
      fun hh => he (prio_inj _ _ ha hb hh)
    simp [he]

theorem callerEdgeCmp_negtrans (s : CCGState) (a b c : Nat)
    (ha : (getEdge s a).allocTypes ≤ 3) (hb : (getEdge s b).allocTypes ≤ 3)
    (hc : (getEdge s c).allocTypes ≤ 3)
    (h1 : callerEdgeCmp s b a = false) (h2 : callerEdgeCmp s c b = false) :
    callerEdgeCmp s c a = false := by
  rw [callerEdgeCmp_false_iff s b a hb ha] at h1
  rw [callerEdgeCmp_false_iff s c b hc hb] at h2
  rw [callerEdgeCmp_false_iff s c a hc ha]
  rcases h1 with h1 | ⟨h1e, h1le⟩
  · rcases h2 with h2 | ⟨h2e, h2le⟩
    · exact Or.inl (lt_trans h1 h2)
    · rw [h2e]
      exact Or.inl h1
  · rcases h2 with h2 | ⟨h2e, h2le⟩
    · rw [h1e] at h2
      exact Or.inl h2
    · exact Or.inr ⟨h2e.trans h1e, le_trans h1le h2le⟩

/-- C5: the cloner's priority over caller-edge alloc types is Cold → 1,
NotCold|Cold → 2, None → 3, NotCold → 4 (NotCold processed last, staying
on the original node); its comparator orders edges by ascending priority
with ties (equal alloc types) broken by the first — least, in the
canonical set representation — context id on the edge; and the stable
sort it applies yields a permutation of the caller edges on which no
later edge strictly precedes an earlier one. -/
theorem C5_caller_edge_priority_order :
    (AllocTypeCloningPriority AllocTypeCold = 1 ∧
      AllocTypeCloningPriority (AllocTypeNotCold ||| AllocTypeCold) = 2 ∧
      AllocTypeCloningPriority AllocTypeNone = 3 ∧
      AllocTypeCloningPriority AllocTypeNotCold = 4) ∧
    (∀ (s : CCGState) (a b : Nat),
      (getEdge s a).allocTypes ≤ 3 → (getEdge s b).allocTypes ≤ 3 →
      (callerEdgeCmp s a b = true ↔
        (AllocTypeCloningPriority (getEdge s a).allocTypes <
            AllocTypeCloningPriority (getEdge s b).allocTypes ∨
          ((getEdge s a).allocTypes = (getEdge s b).allocTypes ∧
            (getEdge s a).contextIds.headD 0 <
              (getEdge s b).contextIds.headD 0)))) ∧
    (∀ ids : IdSet, List.Sorted (· < ·) ids →
      ∀ y ∈ ids, ids.headD 0 ≤ y) ∧
    (∀ (s : CCGState) (l : List Nat),
      List.Perm (stableSort (callerEdgeCmp s) l) l) ∧
    (∀ (s : CCGState) (l : List Nat),
      (∀ e ∈ l, (getEdge s e).allocTypes ≤ 3) →
      List.Pairwise (fun a b => callerEdgeCmp s b a = false)
        (stableSort (callerEdgeCmp s) l)) := by
  refine ⟨⟨rfl, rfl, rfl, rfl⟩, callerEdgeCmp_true_iff, ?_, ?_, ?_⟩
  · intro ids hs y hy
    cases ids with
    | nil => cases hy
    | cons a l =>
      rcases List.mem_cons.mp hy with rfl | hy'
      · exact le_refl _
      · exact le_of_lt ((List.sorted_cons.mp hs).1 y hy')
  · intro s l
    exact stableSort_perm _ l
  · intro s l hl
    refine stableSort_pairwise _ l (callerEdgeCmp_asym s) ?_
    intro a b c hac hbc hcc h1 h2
    exact callerEdgeCmp_negtrans s a b c (hl a hac) (hl b hbc) (hl c hcc) h1 h2

/-- Witness for C5 on the scenario-2 graph: its two caller edges of the
stack-10 node (types Cold and NotCold). -/
theorem C5_witness :
    ((getEdge (moduleCCGConstruct (fun _ _ => true) mixedCloneModule).1
        1).allocTypes ≤ 3 ∧
      (getEdge (moduleCCGConstruct (fun _ _ => true) mixedCloneModule).1
        2).allocTypes ≤ 3 ∧
      (callerEdgeCmp (moduleCCGConstruct (fun _ _ => true) mixedCloneModule).1
          1 2 = true ↔
        (AllocTypeCloningPriority
            (getEdge (moduleCCGConstruct (fun _ _ => true) mixedCloneModule).1
              1).allocTypes <
          AllocTypeCloningPriority
            (getEdge (moduleCCGConstruct (fun _ _ => true) mixedCloneModule).1
              2).allocTypes ∨
          ((getEdge (moduleCCGConstruct (fun _ _ => true) mixedCloneModule).1
              1).allocTypes =
            (getEdge (moduleCCGConstruct (fun _ _ => true) mixedCloneModule).1
              2).allocTypes ∧
            (getEdge (moduleCCGConstruct (fun _ _ => true) mixedCloneModule).1
              1).contextIds.headD 0 <
            (getEdge (moduleCCGConstruct (fun _ _ => true) mixedCloneModule).1
              2).contextIds.headD 0)))) ∧
    (List.Sorted (· < ·) ([1, 2] : IdSet) ∧
      ∀ y ∈ ([1, 2] : IdSet), ([1, 2] : IdSet).headD 0 ≤ y) ∧
    ((∀ e ∈ ([1, 2] : List Nat),
        (getEdge (moduleCCGConstruct (fun _ _ => true) mixedCloneModule).1
          e).allocTypes ≤ 3) ∧
      List.Pairwise
        (fun a b =>
          callerEdgeCmp (moduleCCGConstruct (fun _ _ => true) mixedCloneModule).1
            b a = false)
        (stableSort
          (callerEdgeCmp (moduleCCGConstruct (fun _ _ => true) mixedCloneModule).1)
          [1, 2])) :=
  ⟨⟨by decide, by decide,
      C5_caller_edge_priority_order.2.1
        (moduleCCGConstruct (fun _ _ => true) mixedCloneModule).1 1 2
        (by decide) (by decide)⟩,
    ⟨by decide,
      C5_caller_edge_priority_order.2.2.1 [1, 2] (by decide)⟩,
    ⟨by decide,
      C5_caller_edge_priority_order.2.2.2.2
        (moduleCCGConstruct (fun _ _ => true) mixedCloneModule).1 [1, 2]
        (by decide)⟩⟩

/-! ## C1: alloc types as the union over context ids -/

theorem foldl_lor_testBit (f : Nat → Nat) (ids : List Nat) (b : Nat)
    (i : Nat) :
    (ids.foldl (fun acc id => acc ||| f id) b).testBit i =
      (b.testBit i || ids.any (fun id => (f id).testBit i)) := by
  induction ids generalizing b with
  | nil => simp
  | cons x l ih =>
    show (l.foldl _ (b ||| f x)).testBit i = _
    rw [ih (b ||| f x)]
    simp [Nat.testBit_lor, Bool.or_assoc]

theorem computeAllocType_testBit (mp : List (Nat × Nat)) (ids : IdSet)
    (i : Nat) :
    (computeAllocType mp ids).testBit i =
      ids.any (fun id => (alistGetD mp id 0).testBit i) := by
  unfold computeAllocType
  rw [foldl_lor_testBit]
  simp

theorem any_idInsert (q : Nat → Bool) (x : Nat) (ids : IdSet) :
    (idInsert x ids).any q = (ids.any q || q x) := by
  induction ids with
  | nil => simp [idInsert]
  | cons a l ih =>
    by_cases h1 : x < a
    · rw [idInsert, if_pos h1]
      simp [List.any_cons, Bool.or_assoc, Bool.or_comm, Bool.or_left_comm]
    · by_cases h2 : x = a
      · rw [idInsert, if_neg h1, if_pos h2, h2]
        simp [List.any_cons, Bool.or_assoc, Bool.or_comm, Bool.or_left_comm]
      · rw [idInsert, if_neg h1, if_neg h2]
        simp [List.any_cons, ih, Bool.or_assoc, Bool.or_comm,
          Bool.or_left_comm]

theorem computeAllocType_idInsert (mp : List (Nat × Nat)) (x : Nat)
    (ids : IdSet) :
    computeAllocType mp (idInsert x ids) =
      computeAllocType mp ids ||| alistGetD mp x 0 := by
  apply Nat.eq_of_testBit_eq
  intro i
  rw [Nat.testBit_lor, computeAllocType_testBit, computeAllocType_testBit,
    any_idInsert]

theorem computeAllocType_congr (m1 m2 : List (Nat × Nat)) (ids : IdSet)
    (h : ∀ id ∈ ids, alistGetD m1 id 0 = alistGetD m2 id 0) :
    computeAllocType m1 ids = computeAllocType m2 ids := by
  apply Nat.eq_of_testBit_eq
  intro i
  rw [computeAllocType_testBit, computeAllocType_testBit]
  induction ids with
  | nil => rfl
  | cons a l ih =>
    rw [List.any_cons, List.any_cons, h a (List.mem_cons_self _ _),
      ih (fun id hid => h id (List.mem_cons_of_mem _ hid))]

theorem alistGetD_cons_self (mp : List (Nat × Nat)) (k t d : Nat) :
    alistGetD ((k, t) :: mp) k d = t := by
  simp [alistGetD, List.find?]

theorem alistGetD_cons_ne (mp : List (Nat × Nat)) (k t d id : Nat)
    (h : id ≠ k) : alistGetD ((k, t) :: mp) id d = alistGetD mp id d := by
  have hb : (k == id) = false := by
    simp
    omega
  simp [alistGetD, List.find?, hb]

theorem getNode_prop (P : ContextNode → Prop) (s : CCGState) (i : Nat)
    (hall : ∀ n ∈ s.nodes, P n) (hdef : P default) : P (getNode s i) := by
  unfold getNode
  cases hg : s.nodes.get? i with
  | some n => exact hall n (List.get?_mem hg)
  | none => exact hdef

theorem updNode_nodes_prop (P : ContextNode → Prop) (s : CCGState) (i : Nat)
    (f : ContextNode → ContextNode)
    (hall : ∀ n ∈ s.nodes, P n) (hdef : P default)
    (hf : ∀ n, P n → P (f n)) :
    ∀ n ∈ (updNode s i f).nodes, P n := by
  intro n hn
  unfold updNode setNodeAt at hn
  rcases List.mem_or_eq_of_mem_set hn with h | rfl
  · exact hall n h
  · exact hf _ (getNode_prop P s i hall hdef)

/-- The per-node build invariant relative to an alloc-type map and a
last-minted-id bound. -/
theorem nodeTypesInv_default (mp : List (Nat × Nat)) :
    nodeTypesInv mp default := rfl

theorem nodeIdsBound_default (k : Nat) : nodeIdsBound k default := by
  intro id hid
  cases hid

theorem nodeTypesInv_edgeFields (mp : List (Nat × Nat)) (n : ContextNode)
    (l l' : List Nat) (h : nodeTypesInv mp n) :
    nodeTypesInv mp { n with callerEdges := l, calleeEdges := l' } := h

theorem nodeIdsBound_edgeFields (k : Nat) (n : ContextNode)
    (l l' : List Nat) (h : nodeIdsBound k n) :
    nodeIdsBound k { n with callerEdges := l, calleeEdges := l' } := h

theorem addOrUpdateCallerEdge_spec (Q : ContextNode → Prop) (s : CCGState)
    (selfIdx callerIdx t cid : Nat)
    (hQ : ∀ n (l l' : List Nat), Q n →
      Q { n with callerEdges := l, calleeEdges := l' })
    (hall : ∀ n ∈ s.nodes, Q n) (hdef : Q default) :
    (∀ n ∈ (addOrUpdateCallerEdge s selfIdx callerIdx t cid).nodes, Q n) ∧
    (addOrUpdateCallerEdge s selfIdx callerIdx t cid).contextIdToAllocationType =
      s.contextIdToAllocationType ∧
    (addOrUpdateCallerEdge s selfIdx callerIdx t cid).lastContextId =
      s.lastContextId := by
  unfold addOrUpdateCallerEdge
  cases hf : (getNode s selfIdx).callerEdges.find?
      (fun ei => (getEdge s ei).caller == callerIdx) with
  | some ei => exact ⟨hall, rfl, rfl⟩
  | none =>
    refine ⟨?_, rfl, rfl⟩
    apply updNode_nodes_prop Q _ _ _ ?_ hdef
      (fun n hn => hQ n n.callerEdges (n.calleeEdges ++ [s.edges.length]) hn)
    apply updNode_nodes_prop Q _ _ _ ?_ hdef
      (fun n hn => hQ n (n.callerEdges ++ [s.edges.length]) n.calleeEdges hn)
    exact hall

theorem getOrCreateStackNode_spec (Q : ContextNode → Prop) (s : CCGState)
    (stackId : Nat)
    (hall : ∀ n ∈ s.nodes, Q n)
    (hnew : Q { isAllocation := false, origStackOrAllocId := stackId }) :
    (∀ n ∈ (getOrCreateStackNode s stackId).1.nodes, Q n) ∧
    (getOrCreateStackNode s stackId).1.contextIdToAllocationType =
      s.contextIdToAllocationType ∧
    (getOrCreateStackNode s stackId).1.lastContextId = s.lastContextId := by
  unfold getOrCreateStackNode
  cases hf : getNodeForStackId s stackId with
  | some i => exact ⟨hall, rfl, rfl⟩
  | none =>
    refine ⟨?_, rfl, rfl⟩
    intro n hn
    rcases List.mem_append.mp hn with h | h
    · exact hall n h
    · rw [List.mem_singleton.mp h]
      exact hnew

theorem addMIBChainStep_spec (cid t : Nat) (s : CCGState) (prevIdx : Nat)
    (seen : List Nat) (stackId : Nat)
    (h : ∀ n ∈ s.nodes, nodeTypesInv s.contextIdToAllocationType n ∧
      nodeIdsBound s.lastContextId n)
    (hm : alistGetD s.contextIdToAllocationType cid 0 = t)
    (hc : cid ≤ s.lastContextId) :
    (∀ n ∈ (addMIBChainStep cid t s prevIdx seen stackId).1.nodes,
      nodeTypesInv s.contextIdToAllocationType n ∧
      nodeIdsBound s.lastContextId n) ∧
    (addMIBChainStep cid t s prevIdx seen stackId).1.contextIdToAllocationType =
      s.contextIdToAllocationType ∧
    (addMIBChainStep cid t s prevIdx seen stackId).1.lastContextId =
      s.lastContextId := by
  set Q : ContextNode → Prop := fun n =>
    nodeTypesInv s.contextIdToAllocationType n ∧
    nodeIdsBound s.lastContextId n with hQdef
  have hQd : Q default :=
    ⟨nodeTypesInv_default _, nodeIdsBound_default _⟩
  obtain ⟨hA, hAm, hAl⟩ := getOrCreateStackNode_spec Q s stackId h
    ⟨rfl, by intro id hid; cases hid⟩
  set sA := (getOrCreateStackNode s stackId).1 with hsA
  have hB : ∀ n ∈ (if seen.contains stackId then
      updNode sA (getOrCreateStackNode s stackId).2
        (fun n => { n with recursive := true }) else sA).nodes, Q n := by
    split
    · exact updNode_nodes_prop Q sA _ _ hA hQd (fun n hn => hn)
    · exact hA
  set sB := (if seen.contains stackId then
      updNode sA (getOrCreateStackNode s stackId).2
        (fun n => { n with recursive := true }) else sA) with hsB
  have hBm : sB.contextIdToAllocationType = s.contextIdToAllocationType := by
    rw [hsB]
    split
    · exact hAm
    · exact hAm
  have hBl : sB.lastContextId = s.lastContextId := by
    rw [hsB]
    split
    · exact hAl
    · exact hAl
  have hC : ∀ n ∈ (updNode sB (getOrCreateStackNode s stackId).2
      (nodeAddContext cid t)).nodes, Q n := by
    refine updNode_nodes_prop Q sB _ _ hB hQd ?_
    intro n hn
    refine ⟨?_, ?_⟩
    · show n.allocTypes ||| t =
        computeAllocType s.contextIdToAllocationType (idInsert cid n.contextIds)
      rw [computeAllocType_idInsert, hm, hn.1]
    · intro id hid
      rcases mem_idInsert.mp hid with rfl | hid'
      · exact hc
      · exact hn.2 id hid'
  obtain ⟨hD, hDm, hDl⟩ := addOrUpdateCallerEdge_spec Q
    (updNode sB (getOrCreateStackNode s stackId).2 (nodeAddContext cid t))
    prevIdx (getOrCreateStackNode s stackId).2 t cid
    (fun n l l' hn => ⟨nodeTypesInv_edgeFields _ n l l' hn.1,
      nodeIdsBound_edgeFields _ n l l' hn.2⟩)
    hC hQd
  exact ⟨hD, hDm.trans hBm, hDl.trans hBl⟩

theorem addMIBChain_inv (cid t : Nat) (ids : List Nat) :
    ∀ (s : CCGState) (prevIdx : Nat) (seen : List Nat),
    (∀ n ∈ s.nodes, nodeTypesInv s.contextIdToAllocationType n ∧
      nodeIdsBound s.lastContextId n) →
    alistGetD s.contextIdToAllocationType cid 0 = t →
    cid ≤ s.lastContextId →
    (∀ n ∈ (addMIBChain cid t s prevIdx seen ids).nodes,
      nodeTypesInv
        (addMIBChain cid t s prevIdx seen ids).contextIdToAllocationType n ∧
      nodeIdsBound (addMIBChain cid t s prevIdx seen ids).lastContextId n) ∧
    (addMIBChain cid t s prevIdx seen ids).contextIdToAllocationType =
      s.contextIdToAllocationType ∧
    (addMIBChain cid t s prevIdx seen ids).lastContextId =
      s.lastContextId := by
  induction ids with
  | nil =>
    intro s prevIdx seen h hm hc
    refine ⟨?_, rfl, rfl⟩
    intro n hn
    exact h n hn
  | cons stackId rest ih =>
    intro s prevIdx seen h hm hc
    obtain ⟨hS, hSm, hSl⟩ :=
      addMIBChainStep_spec cid t s prevIdx seen stackId h hm hc
    have hS' : ∀ n ∈ (addMIBChainStep cid t s prevIdx seen stackId).1.nodes,
        nodeTypesInv
          (addMIBChainStep cid t s prevIdx seen stackId).1.contextIdToAllocationType
          n ∧
        nodeIdsBound
          (addMIBChainStep cid t s prevIdx seen stackId).1.lastContextId n := by
      rw [hSm, hSl]
      exact hS
    obtain ⟨h1, h2, h3⟩ := ih (addMIBChainStep cid t s prevIdx seen stackId).1
      (addMIBChainStep cid t s prevIdx seen stackId).2 (seen ++ [stackId])
      hS' (by rw [hSm]; exact hm) (by rw [hSl]; exact hc)
    rw [addMIBChain]
    exact ⟨h1, by rw [h2, hSm], by rw [h3, hSl]⟩

theorem nodeAddContext_pres (mp : List (Nat × Nat)) (k cid t : Nat)
    (hm : alistGetD mp cid 0 = t) (hc : cid ≤ k) (n : ContextNode)
    (hn : nodeTypesInv mp n ∧ nodeIdsBound k n) :
    nodeTypesInv mp (nodeAddContext cid t n) ∧
    nodeIdsBound k (nodeAddContext cid t n) := by
  refine ⟨?_, ?_⟩
  · show n.allocTypes ||| t =
      computeAllocType mp (idInsert cid n.contextIds)
    rw [computeAllocType_idInsert, hm, hn.1]
  · intro id hid
    rcases mem_idInsert.mp hid with rfl | hid'
    · exact hc
    · exact hn.2 id hid'

theorem addStackNodesForMIB_inv (s : CCGState) (allocIdx : Nat)
    (stack ctx : List Nat) (t : Nat) (h : buildInv s) :
    buildInv (addStackNodesForMIB s allocIdx stack ctx t) := by
  set cid := s.lastContextId + 1 with hcid
  set s1 : CCGState := { s with
    lastContextId := cid,
    contextIdToAllocationType :=
      alistInsert s.contextIdToAllocationType cid t } with hs1
  have h1 : ∀ n ∈ s1.nodes, nodeTypesInv s1.contextIdToAllocationType n ∧
      nodeIdsBound s1.lastContextId n := by
    intro n hn
    obtain ⟨hn2, hnb⟩ := h n hn
    refine ⟨?_, ?_⟩
    · show n.allocTypes =
        computeAllocType ((cid, t) :: s.contextIdToAllocationType) n.contextIds
      rw [hn2]
      apply computeAllocType_congr
      intro id hid
      have hb := hnb id hid
      exact (alistGetD_cons_ne _ _ _ _ _ (by omega)).symm
    · intro id hid
      have hb := hnb id hid
      show id ≤ s.lastContextId + 1
      omega
  have hm1 : alistGetD s1.contextIdToAllocationType cid 0 = t :=
    alistGetD_cons_self _ _ _ _
  have h2 : ∀ n ∈ (updNode s1 allocIdx (nodeAddContext cid t)).nodes,
      nodeTypesInv s1.contextIdToAllocationType n ∧
      nodeIdsBound s1.lastContextId n :=
    updNode_nodes_prop _ _ _ _ h1
      ⟨nodeTypesInv_default _, nodeIdsBound_default _⟩
      (fun n hn => nodeAddContext_pres _ _ cid t hm1 (le_refl cid) n hn)
  obtain ⟨hf1, _, _⟩ := addMIBChain_inv cid t (dropSharedPrefix stack ctx)
    (updNode s1 allocIdx (nodeAddContext cid t)) allocIdx [] h2 hm1
    (le_refl cid)
  intro n hn
  exact hf1 n hn

theorem addAllocNode_inv (s : CCGState) (call : CallInfo) (f : Nat)
    (h : buildInv s) : buildInv (addAllocNode s call f).1 := by
  intro n hn
  unfold addAllocNode at hn
  rcases List.mem_append.mp hn with h' | h'
  · exact h n h'
  · rw [List.mem_singleton.mp h']
    exact ⟨rfl, by intro id hid; cases hid⟩

theorem scanInstr_inv (f i : Nat) (acc : CCGState × List CallInfo)
    (ins : Instr) (h : buildInv acc.1) :
    buildInv (scanInstr f i acc ins).1.1 := by
  unfold scanInstr
  split
  · exact h
  · split
    · exact foldl_preserves buildInv _ _ _
        (addAllocNode_inv acc.1 ((f, i), 0) f h)
        (fun s mib hs => addStackNodesForMIB_inv s _ mib.1 _ mib.2 hs)
    · split
      · exact h
      · exact h

theorem scanFunc_inv (s : CCGState) (f : Nat) (instrs : List Instr)
    (h : buildInv s) : buildInv (scanFunc s f instrs).1 := by
  unfold scanFunc
  have hr := foldl_preserves
    (fun acc : (CCGState × List CallInfo) × List Instr × Nat =>
      buildInv acc.1.1)
    (scanStep f) instrs ((s, []), ([], 0)) h
    (fun b a hb => scanInstr_inv f b.2.2 b.1 a hb)
  dsimp only
  split
  · exact hr
  · exact hr

theorem moduleScan_inv (m : ModuleIR) : buildInv (moduleScan m).1 := by
  unfold moduleScan
  exact foldl_preserves
    (fun acc : CCGState × ModuleIR × Nat => buildInv acc.1)
    moduleScanStep m ({}, ([], 0))
    (by intro n hn; exact absurd hn (List.not_mem_nil n))
    (fun b a hb => scanFunc_inv b.1 b.2.2 a hb)

/-- C1 (amended): after the graph build (the constructor's scan over the
module, before stack-node reconciliation), every node's alloc-type mask
equals the union of `ContextIdToAllocationType` over its context ids.  At
the later stage boundaries this equality can fail for live nodes, because
reconciliation subtracts context ids from interior nodes without
recomputing their masks (see the counterexample). -/
theorem C1_amended_alloc_types_union_after_build (m : ModuleIR) :
    ∀ n ∈ (moduleScan m).1.nodes,
      n.allocTypes =
        computeAllocType (moduleScan m).1.contextIdToAllocationType
          n.contextIds := by
  intro n hn
  exact ((moduleScan_inv m) n hn).1

/-- Witness for the amended C1 on scenario 1's allocation node. -/
theorem C1_amended_witness :
    getNode (moduleScan scenario1Module).1 0 ∈ (moduleScan scenario1Module).1.nodes ∧
    (getNode (moduleScan scenario1Module).1 0).allocTypes =
      computeAllocType (moduleScan scenario1Module).1.contextIdToAllocationType
        (getNode (moduleScan scenario1Module).1 0).contextIds :=
  ⟨by decide,
    C1_amended_alloc_types_union_after_build scenario1Module
      (getNode (moduleScan scenario1Module).1 0) (by decide)⟩

theorem seqWalk_subset (s : CCGState) (ids : List Nat) (prev : Nat)
    (acc : IdSet) (w : IdSet × Nat) (hw : seqWalk s ids prev acc = some w) :
    ∀ id ∈ w.1, id ∈ acc := by
  induction ids generalizing prev acc with
  | nil =>
    unfold seqWalk at hw
    cases hw
    intro id hid
    exact hid
  | cons a rest ih =>
    unfold seqWalk at hw
    cases hg : getNodeForStackId s a with
    | none =>
      rw [hg] at hw
      cases hw
    | some curIdx =>
      rw [hg] at hw
      dsimp only at hw
      split at hw
      · cases hw
      · split at hw
        · cases hw
        · split at hw
          · cases hw
          · intro id hid
            have h1 := ih _ _ hw id hid
            exact (mem_idInter.mp h1).1

theorem subtractCallerIds_subset (s : CCGState) (nIdx : Nat) (ids : IdSet) :
    ∀ id ∈ subtractCallerIds s nIdx ids, id ∈ ids := by
  unfold subtractCallerIds
  generalize (getNode s nIdx).callerEdges = eis
  induction eis generalizing ids with
  | nil => intro id hid; exact hid
  | cons e rest ih =>
    intro id hid
    have h1 := ih (idSub ids (getEdge s e).contextIds) id hid
    exact (mem_idSub.mp h1).1

theorem dupStep_fresh (k : Nat) (ids : IdSet)
    (acc : CCGState × IdSet × List (Nat × IdSet))
    (h1 : k ≤ acc.1.lastContextId) (h2 : ∀ id ∈ acc.2.1, k < id) :
    k ≤ (ids.foldl dupStep acc).1.lastContextId ∧
    ∀ id ∈ (ids.foldl dupStep acc).2.1, k < id := by
  induction ids generalizing acc with
  | nil => exact ⟨h1, h2⟩
  | cons a rest ih =>
    apply ih
    · show k ≤ acc.1.lastContextId + 1
      omega
    · intro id hid
      have hid2 : id ∈ idInsert (acc.1.lastContextId + 1) acc.2.1 := hid
      rcases mem_idInsert.mp hid2 with rfl | hid'
      · omega
      · exact h2 id hid'

theorem duplicateContextIds_fresh (s : CCGState) (ids : IdSet)
    (old2new : List (Nat × IdSet)) :
    ∀ id ∈ (duplicateContextIds s ids old2new).2.1, s.lastContextId < id :=
  (dupStep_fresh s.lastContextId ids (s, [], old2new) (le_refl _)
    (by intro id hid; cases hid)).2

theorem processBucketCalls_cons (m : ModuleIR) (s : CCGState)
    (old2new : List (Nat × IdSet)) (pool : IdSet) (lastNodeIdx : Nat)
    (c : CallContextInfo) (rest : List CallContextInfo) :
    processBucketCalls m s old2new pool lastNodeIdx (c :: rest) =
    match seqWalk s (c.ids.reverse.drop 1) lastNodeIdx pool with
    | none =>
      let r := processBucketCalls m s old2new pool lastNodeIdx rest
      (r.1, r.2.1, c :: r.2.2)
    | some w =>
      let seqIds :=
        if (c.ids.getLast?.getD 0) != getLastStackId m c.call then
          subtractCallerIds s w.2 w.1
        else w.1
      if seqIds.isEmpty then
        let r := processBucketCalls m s old2new pool lastNodeIdx rest
        (r.1, r.2.1, c :: r.2.2)
      else
        let dup :=
          match rest with
          | [] => false
          | next :: _ => c.ids == next.ids
        if dup then
          let d := duplicateContextIds s seqIds old2new
          let r := processBucketCalls m d.1 d.2.2 pool lastNodeIdx rest
          (r.1, r.2.1, { c with savedContextIds := d.2.1 } :: r.2.2)
        else
          let pool' := idSub pool seqIds
          if pool'.isEmpty then
            (s, old2new, { c with savedContextIds := seqIds } :: rest)
          else
            let r := processBucketCalls m s old2new pool' lastNodeIdx rest
            (r.1, r.2.1, { c with savedContextIds := seqIds } :: r.2.2) :=
  rfl

/-- C7 (amended): in the per-call loop of `updateStackNodes`, fresh
duplicate context ids are minted for a call exactly when its full kept
stack-id sequence equals the next call's sequence in sort order (the
source compares `Ids == NextIds`, not just the shared last id); when the
sequences differ, the call is assigned its computed ids, which all come
from the last node's remaining pool. -/
theorem C7_amended_duplication_on_full_sequence_equality
    (m : ModuleIR) (s : CCGState) (old2new : List (Nat × IdSet))
    (pool seqIds : IdSet) (lastNodeIdx : Nat)
    (c next : CallContextInfo) (rest : List CallContextInfo)
    (w : IdSet × Nat)
    (hw : seqWalk s (c.ids.reverse.drop 1) lastNodeIdx pool = some w)
    (hseq : seqIds =
      if (c.ids.getLast?.getD 0) != getLastStackId m c.call then
        subtractCallerIds s w.2 w.1
      else w.1)
    (hne : seqIds.isEmpty = false) :
    (c.ids = next.ids →
      ((processBucketCalls m s old2new pool lastNodeIdx
          (c :: next :: rest)).2.2.head?.map
            (fun x => x.savedContextIds) =
        some (duplicateContextIds s seqIds old2new).2.1 ∧
       ∀ id ∈ (duplicateContextIds s seqIds old2new).2.1,
         s.lastContextId < id)) ∧
    (c.ids ≠ next.ids →
      ((processBucketCalls m s old2new pool lastNodeIdx
          (c :: next :: rest)).2.2.head?.map
            (fun x => x.savedContextIds) =
        some seqIds ∧
       ∀ id ∈ seqIds, id ∈ pool)) := by
  have hsub : ∀ id ∈ seqIds, id ∈ pool := by
    intro id hid
    rw [hseq] at hid
    split at hid
    · exact seqWalk_subset s _ _ _ _ hw id
        (subtractCallerIds_subset s w.2 w.1 id hid)
    · exact seqWalk_subset s _ _ _ _ hw id hid
  constructor
  · intro hid
    constructor
    · show (processBucketCalls m s old2new pool lastNodeIdx
          (c :: next :: rest)).2.2.head?.map (fun x => x.savedContextIds) =
        some (duplicateContextIds s seqIds old2new).2.1
      simp only [processBucketCalls_cons, hw]
      rw [← hseq]
      simp [hne, hid]
    · exact duplicateContextIds_fresh s seqIds old2new
  · intro hid
    constructor
    · show (processBucketCalls m s old2new pool lastNodeIdx
          (c :: next :: rest)).2.2.head?.map (fun x => x.savedContextIds) =
        some seqIds
      simp only [processBucketCalls_cons, hw]
      rw [← hseq]
      simp only [hne, Bool.false_eq_true, if_false]
      simp only [List.cons.injEq, beq_iff_eq, hid, if_false]
      split
      · simp
      · simp
    · exact hsub

/-- Witness for the amended C7: two calls with the identical kept
sequence `[5]`; the first call is assigned freshly minted duplicates. -/
theorem C7_amended_witness :
    seqWalk ({} : CCGState) (([5] : List Nat).reverse.drop 1) 0 [1] =
      some ([1], 0) ∧
    ((processBucketCalls [] {} [] [1] 0
        [⟨(0, 0), [5], 0, []⟩, ⟨(0, 1), [5], 0, []⟩]).2.2.head?.map
          (fun x => x.savedContextIds) =
      some (duplicateContextIds ({} : CCGState) [1] []).2.1 ∧
     ∀ id ∈ (duplicateContextIds ({} : CCGState) [1] []).2.1,
       ({} : CCGState).lastContextId < id) :=
  ⟨by decide,
    (C7_amended_duplication_on_full_sequence_equality [] {} [] [1] [1] 0
      ⟨(0, 0), [5], 0, []⟩ ⟨(0, 1), [5], 0, []⟩ [] ([1], 0)
      (by decide) (by decide) (by decide)).1 (by decide)⟩

theorem getNode_updNode_ne (s : CCGState) (k n : Nat)
    (g : ContextNode → ContextNode) (h : n ≠ k) :
    getNode (updNode s k g) n = getNode s n := by
  unfold updNode setNodeAt getNode
  rw [List.get?_set_ne _ _ (Ne.symm h)]

theorem sanitizeStep_edges (f : Call → Nat → Bool) (t : CCGState)
    (p : CallInfo × Nat) : (sanitizeStep f t p).edges = t.edges := by
  unfold sanitizeStep
  split <;> rfl

theorem sanitizeStep_funcs (f : Call → Nat → Bool) (t : CCGState)
    (p : CallInfo × Nat) :
    (sanitizeStep f t p).nodeToCallingFunc = t.nodeToCallingFunc := by
  unfold sanitizeStep
  split <;> rfl

theorem sanitizeStep_getNode_ne (f : Call → Nat → Bool) (t : CCGState)
    (p : CallInfo × Nat) (n : Nat) (h : n ≠ p.2) :
    getNode (sanitizeStep f t p) n = getNode t n := by
  unfold sanitizeStep
  split
  · show getNode (updNode t p.2 (fun n => { n with call := none })) n =
      getNode t n
    exact getNode_updNode_ne t p.2 n _ h
  · rfl

theorem sanitizeStep_call_none (f : Call → Nat → Bool) (t : CCGState)
    (p : CallInfo × Nat) (h : callsiteMismatch f t p.2 = true) :
    (getNode (sanitizeStep f t p) p.2).call = none := by
  unfold sanitizeStep
  rw [if_pos h]
  show (getNode (updNode t p.2 (fun n => { n with call := none })) p.2).call =
    none
  unfold updNode setNodeAt getNode
  by_cases hl : p.2 < t.nodes.length
  · rw [List.get?_set_eq_of_lt _ hl]
    rfl
  · rw [List.get?_eq_none.mpr (by rw [List.length_set]; omega)]
    rfl

theorem sanitizeStep_map_cases (f : Call → Nat → Bool) (t : CCGState)
    (p : CallInfo × Nat) :
    (sanitizeStep f t p).nonAllocationCallToContextNodeMap =
      t.nonAllocationCallToContextNodeMap.filter (fun q => q != p) ∨
    (sanitizeStep f t p).nonAllocationCallToContextNodeMap =
      t.nonAllocationCallToContextNodeMap := by
  unfold sanitizeStep
  split
  · left; rfl
  · right; rfl

theorem sanitizeStep_map_mem (f : Call → Nat → Bool) (t : CCGState)
    (p q : CallInfo × Nat) (hq : q ∈ t.nonAllocationCallToContextNodeMap)
    (hne : q ≠ p) :
    q ∈ (sanitizeStep f t p).nonAllocationCallToContextNodeMap := by
  rcases sanitizeStep_map_cases f t p with h | h <;> rw [h]
  · exact List.mem_filter.mpr ⟨hq, by simp [hne]⟩
  · exact hq

theorem foldSan_getNode_preserve (f : Call → Nat → Bool)
    (l : List (CallInfo × Nat)) (t : CCGState) (n : Nat)
    (h : ∀ q ∈ l, n ≠ q.2) :
    getNode (l.foldl (sanitizeStep f) t) n = getNode t n := by
  induction l generalizing t with
  | nil => rfl
  | cons c rest ih =>
    rw [List.foldl_cons,
      ih _ (fun q hq => h q (List.mem_cons_of_mem _ hq)),
      sanitizeStep_getNode_ne f t c n (h c (by simp))]

theorem foldSan_map_not_mem (f : Call → Nat → Bool)
    (l : List (CallInfo × Nat)) (t : CCGState) (p : CallInfo × Nat)
    (h : p ∉ t.nonAllocationCallToContextNodeMap) :
    p ∉ (l.foldl (sanitizeStep f) t).nonAllocationCallToContextNodeMap := by
  induction l generalizing t with
  | nil => exact h
  | cons c rest ih =>
    rw [List.foldl_cons]
    apply ih
    rcases sanitizeStep_map_cases f t c with h2 | h2 <;> rw [h2]
    · intro hmem
      exact h (List.mem_filter.mp hmem).1
    · exact h

theorem foldSan_map_mem (f : Call → Nat → Bool)
    (l : List (CallInfo × Nat)) (t : CCGState) (p : CallInfo × Nat)
    (hmem : p ∈ t.nonAllocationCallToContextNodeMap)
    (h : ∀ q ∈ l, p ≠ q) :
    p ∈ (l.foldl (sanitizeStep f) t).nonAllocationCallToContextNodeMap := by
  induction l generalizing t with
  | nil => exact hmem
  | cons c rest ih =>
    rw [List.foldl_cons]
    exact ih _ (sanitizeStep_map_mem f t c p hmem (h c (by simp)))
      (fun q hq => h q (List.mem_cons_of_mem _ hq))

theorem any_congr_mem {α : Type} {l : List α} {p q : α → Bool}
    (h : ∀ x ∈ l, p x = q x) : l.any p = l.any q := by
  induction l with
  | nil => rfl
  | cons a rest ih =>
    rw [List.any_cons, List.any_cons, h a (by simp),
      ih (fun x hx => h x (List.mem_cons_of_mem _ hx))]

theorem callsiteMismatch_congr (f : Call → Nat → Bool) (t s : CCGState)
    (n : Nat) (hn : getNode t n = getNode s n) (hE : t.edges = s.edges)
    (hF : t.nodeToCallingFunc = s.nodeToCallingFunc)
    (hT : ∀ ei ∈ (getNode s n).calleeEdges,
      getNode t ((getEdge s ei).callee) =
        getNode s ((getEdge s ei).callee)) :
    callsiteMismatch f t n = callsiteMismatch f s n := by
  have hge : ∀ ei, getEdge t ei = getEdge s ei := by
    intro ei
    unfold getEdge
    rw [hE]
  simp only [callsiteMismatch]
  rw [hn, hF]
  apply any_congr_mem
  intro ei hei
  rw [hge ei, hT ei hei]

theorem foldSan_entry (f : Call → Nat → Bool) (s : CCGState)
    (l : List (CallInfo × Nat)) :
    ∀ (t : CCGState),
    t.edges = s.edges →
    t.nodeToCallingFunc = s.nodeToCallingFunc →
    List.Pairwise (fun p q => p.2 ≠ q.2 ∧
      ∀ ei ∈ (getNode s q.2).calleeEdges, (getEdge s ei).callee ≠ p.2) l →
    (∀ q ∈ l, getNode t q.2 = getNode s q.2) →
    (∀ q ∈ l, ∀ ei ∈ (getNode s q.2).calleeEdges,
      getNode t ((getEdge s ei).callee) =
        getNode s ((getEdge s ei).callee)) →
    (∀ q ∈ l, q ∈ t.nonAllocationCallToContextNodeMap) →
    ∀ p ∈ l,
    (callsiteMismatch f s p.2 = true →
      (getNode (l.foldl (sanitizeStep f) t) p.2).call = none ∧
      p ∉ (l.foldl (sanitizeStep f) t).nonAllocationCallToContextNodeMap) ∧
    (callsiteMismatch f s p.2 = false →
      getNode (l.foldl (sanitizeStep f) t) p.2 = getNode s p.2 ∧
      p ∈ (l.foldl (sanitizeStep f) t).nonAllocationCallToContextNodeMap) := by
  induction l with
  | nil =>
    intro t _ _ _ _ _ _ p hp
    cases hp
  | cons c rest ih =>
    intro t hE hF hpw hNl hTl hMem p hp
    obtain ⟨hpwc, hpwrest⟩ := List.pairwise_cons.mp hpw
    rcases List.mem_cons.mp hp with rfl | hp'
    · have hcm : callsiteMismatch f t p.2 = callsiteMismatch f s p.2 :=
        callsiteMismatch_congr f t s p.2 (hNl p (by simp)) hE hF
          (hTl p (by simp))
      by_cases hm : callsiteMismatch f s p.2 = true
      · refine ⟨fun _ => ?_, fun hf' => absurd hm (by simp [hf'])⟩
        have hstep_map :
            (sanitizeStep f t p).nonAllocationCallToContextNodeMap =
              t.nonAllocationCallToContextNodeMap.filter
                (fun q => q != p) := by
          unfold sanitizeStep
          rw [if_pos (hcm.trans hm)]
          rfl
        constructor
        · rw [show (p :: rest).foldl (sanitizeStep f) t =
              rest.foldl (sanitizeStep f) (sanitizeStep f t p) from rfl,
            foldSan_getNode_preserve f rest _ p.2
              (fun q hq => (hpwc q hq).1)]
          exact sanitizeStep_call_none f t p (hcm.trans hm)
        · rw [show (p :: rest).foldl (sanitizeStep f) t =
              rest.foldl (sanitizeStep f) (sanitizeStep f t p) from rfl]
          apply foldSan_map_not_mem
          rw [hstep_map]
          intro hmem'
          have h2 := (List.mem_filter.mp hmem').2
          simp at h2
      · have hm' : callsiteMismatch f s p.2 = false := by
          cases h : callsiteMismatch f s p.2
          · rfl
          · exact absurd h hm
        refine ⟨fun ht' => absurd ht' hm, fun _ => ?_⟩
        have hstep : sanitizeStep f t p = t := by
          unfold sanitizeStep
          rw [if_neg (by rw [hcm, hm']; exact Bool.false_ne_true)]
        rw [show (p :: rest).foldl (sanitizeStep f) t =
            rest.foldl (sanitizeStep f) (sanitizeStep f t p) from rfl, hstep]
        constructor
        · rw [foldSan_getNode_preserve f rest t p.2
            (fun q hq => (hpwc q hq).1)]
          exact hNl p (by simp)
        · exact foldSan_map_mem f rest t p (hMem p (by simp))
            (fun q hq h2 => (hpwc q hq).1 (by rw [h2]))
    · rw [show (c :: rest).foldl (sanitizeStep f) t =
          rest.foldl (sanitizeStep f) (sanitizeStep f t c) from rfl]
      apply ih (sanitizeStep f t c) ?_ ?_ hpwrest ?_ ?_ ?_ p hp'
      · rw [sanitizeStep_edges]
        exact hE
      · rw [sanitizeStep_funcs]
        exact hF
      · intro q hq
        rw [sanitizeStep_getNode_ne f t c q.2 (Ne.symm (hpwc q hq).1)]
        exact hNl q (List.mem_cons_of_mem _ hq)
      · intro q hq ei hei
        rw [sanitizeStep_getNode_ne f t c _ ((hpwc q hq).2 ei hei)]
        exact hTl q (List.mem_cons_of_mem _ hq) ei hei
      · intro q hq
        exact sanitizeStep_map_mem f t c q
          (hMem q (List.mem_cons_of_mem _ hq))
          (fun h2 => (hpwc q hq).1 (by rw [h2]))

/-- C8: provided the non-allocation call map binds distinct nodes and no
earlier-bound node is a callee-edge target of a later-bound one, the
multi-target sanitizer un-binds exactly the interior nodes whose call
mismatches some call-bearing callee target per the back-end's
`calleeMatchesFunc` oracle — the node's call is nulled and its map entry
erased — while every other bound node and its entry are left unchanged;
the sanitizer is a total state transformer, surfacing no error. -/
theorem C8_multi_target_sanitizer (matchFn : Call → Nat → Bool)
    (s : CCGState)
    (hpw : List.Pairwise (fun p q => p.2 ≠ q.2 ∧
      ∀ ei ∈ (getNode s q.2).calleeEdges, (getEdge s ei).callee ≠ p.2)
      s.nonAllocationCallToContextNodeMap)
    (p : CallInfo × Nat) (hp : p ∈ s.nonAllocationCallToContextNodeMap) :
    (callsiteMismatch matchFn s p.2 = true →
      (getNode (handleCallsitesWithMultipleTargets matchFn s) p.2).call =
        none ∧
      p ∉ (handleCallsitesWithMultipleTargets matchFn
        s).nonAllocationCallToContextNodeMap) ∧
    (callsiteMismatch matchFn s p.2 = false →
      getNode (handleCallsitesWithMultipleTargets matchFn s) p.2 =
        getNode s p.2 ∧
      p ∈ (handleCallsitesWithMultipleTargets matchFn
        s).nonAllocationCallToContextNodeMap) :=
  foldSan_entry matchFn s s.nonAllocationCallToContextNodeMap s rfl rfl hpw
    (fun _ _ => rfl) (fun _ _ _ _ => rfl) (fun _ hq => hq) p hp

/-- Witness for C8 on the pre-sanitizer graph of scenario 2 with an oracle
that rejects every callee: the single bound interior node mismatches and
is un-bound. -/
theorem C8_witness :
    List.Pairwise (fun p q => p.2 ≠ q.2 ∧
      ∀ ei ∈ (getNode preSanitizeState q.2).calleeEdges,
        (getEdge preSanitizeState ei).callee ≠ p.2)
      preSanitizeState.nonAllocationCallToContextNodeMap ∧
    (((1, 0), 0), 1) ∈ preSanitizeState.nonAllocationCallToContextNodeMap ∧
    callsiteMismatch (fun _ _ => false) preSanitizeState 1 = true ∧
    ((getNode (handleCallsitesWithMultipleTargets (fun _ _ => false)
        preSanitizeState) 1).call = none ∧
      ((((1, 0), 0), 1) : CallInfo × Nat) ∉
        (handleCallsitesWithMultipleTargets (fun _ _ => false)
          preSanitizeState).nonAllocationCallToContextNodeMap) :=
  ⟨by decide, by decide, by decide,
    (C8_multi_target_sanitizer (fun _ _ => false) preSanitizeState
      (by decide) (((1, 0), 0), 1) (by decide)).1 (by decide)⟩

theorem duplicateContextIds_funcMeta (s : CCGState) (ids : IdSet)
    (o2n : List (Nat × IdSet)) :
    (duplicateContextIds s ids o2n).1.funcToCallsWithMetadata =
      s.funcToCallsWithMetadata := by
  unfold duplicateContextIds
  exact foldl_preserves
    (fun acc : CCGState × IdSet × List (Nat × IdSet) =>
      acc.1.funcToCallsWithMetadata = s.funcToCallsWithMetadata)
    dupStep ids (s, [], o2n) rfl (fun b a hb => hb)

theorem processBucketCalls_funcMeta (m : ModuleIR) (l : List CallContextInfo) :
    ∀ (s : CCGState) (o2n : List (Nat × IdSet)) (pool : IdSet) (k : Nat),
    (processBucketCalls m s o2n pool k l).1.funcToCallsWithMetadata =
      s.funcToCallsWithMetadata := by
  induction l with
  | nil =>
    intro s o p k
    rfl
  | cons c rest ih =>
    intro s o p k
    rw [processBucketCalls_cons]
    repeat' first
      | split
      | (dsimp only; split)
    all_goals first
      | rfl
      | exact ih s o p k
      | exact ih s o _ k
      | exact (ih _ _ p k).trans (duplicateContextIds_funcMeta s _ o)
      | simp_all

theorem processBucket_funcMeta (m : ModuleIR)
    (acc : CCGState × List (Nat × IdSet)) (b : Nat × List CallContextInfo) :
    (processBucket m acc b).1.1.funcToCallsWithMetadata =
      acc.1.funcToCallsWithMetadata := by
  unfold processBucket
  repeat' first
    | split
    | (dsimp only; split)
  all_goals first
    | rfl
    | exact processBucketCalls_funcMeta m _ _ _ _ _

theorem updateCallersDup_funcMeta (o2n : List (Nat × IdSet)) :
    ∀ (fuel : Nat) (s : CCGState) (v : List Nat) (n : Nat),
    (updateCallersDup o2n fuel s v n).1.funcToCallsWithMetadata =
      s.funcToCallsWithMetadata := by
  intro fuel
  induction fuel with
  | zero =>
    intro s v n
    rfl
  | succ fuel ih =>
    intro s v n
    show ((getNode s n).callerEdges.foldl _ (s, v)).1.funcToCallsWithMetadata
      = _
    apply foldl_preserves (fun acc : CCGState × List Nat =>
      acc.1.funcToCallsWithMetadata = s.funcToCallsWithMetadata) _ _ _ rfl
    intro b a hb
    dsimp only
    split
    · exact hb
    · split
      · exact hb
      · exact (ih _ _ _).trans hb

theorem propagateDuplicateContextIds_funcMeta (s : CCGState)
    (o2n : List (Nat × IdSet)) :
    (propagateDuplicateContextIds s o2n).funcToCallsWithMetadata =
      s.funcToCallsWithMetadata := by
  unfold propagateDuplicateContextIds
  apply foldl_preserves (fun acc : CCGState × List Nat =>
    acc.1.funcToCallsWithMetadata = s.funcToCallsWithMetadata) _ _ _ rfl
  intro b a hb
  dsimp only
  exact (updateCallersDup_funcMeta o2n _ _ _ _).trans hb

theorem connectNewNode_funcMeta (s : CCGState) (newIdx origIdx : Nat)
    (tc : Bool) :
    (connectNewNode s newIdx origIdx tc).funcToCallsWithMetadata =
      s.funcToCallsWithMetadata := by
  unfold connectNewNode
  apply foldl_preserves (fun acc : CCGState × IdSet =>
    acc.1.funcToCallsWithMetadata = s.funcToCallsWithMetadata) _ _ _ rfl
  intro b a hb
  dsimp only
  split
  · exact hb
  · split <;> split <;> exact hb

theorem chainSubtract_funcMeta (saved : IdSet) :
    ∀ (l : List Nat) (s : CCGState) (p : Option Nat),
    (chainSubtract saved s l p).funcToCallsWithMetadata =
      s.funcToCallsWithMetadata := by
  intro l
  induction l with
  | nil =>
    intro s p
    rfl
  | cons id rest ih =>
    intro s p
    unfold chainSubtract
    repeat' first
      | split
      | (dsimp only; split)
    all_goals first
      | rfl
      | exact ih _ _

theorem assignNodeCalls_funcMeta (k : Nat) :
    ∀ (l : List CallContextInfo) (s : CCGState),
    (assignNodeCalls k s l).funcToCallsWithMetadata =
      s.funcToCallsWithMetadata := by
  intro l
  induction l with
  | nil =>
    intro s
    rfl
  | cons c rest ih =>
    intro s
    unfold assignNodeCalls
    repeat' first
      | split
      | (dsimp only; split)
    all_goals first
      | exact ih s
      | exact (ih _).trans ((chainSubtract_funcMeta _ _ _ _).trans
          ((connectNewNode_funcMeta _ _ _ _).trans
            (connectNewNode_funcMeta _ _ _ _)))

theorem assignStackNodesPostOrder_funcMeta
    (buckets : List (Nat × List CallContextInfo)) :
    ∀ (fuel : Nat) (s : CCGState) (v : List Nat) (n : Nat),
    (assignStackNodesPostOrder buckets fuel s v n).1.funcToCallsWithMetadata
      = s.funcToCallsWithMetadata := by
  intro fuel
  induction fuel with
  | zero =>
    intro s v n
    rfl
  | succ fuel ih =>
    intro s v n
    show (if (v.contains n) = true then (s, v) else _).1.funcToCallsWithMetadata
      = _
    split
    · rfl
    · dsimp only
      have hr : ∀ (eis : List Nat) (acc : CCGState × List Nat),
          acc.1.funcToCallsWithMetadata = s.funcToCallsWithMetadata →
          ((eis.foldl (fun acc ei => assignStackNodesPostOrder buckets fuel
            acc.1 acc.2 (getEdge acc.1 ei).caller)
            acc)).1.funcToCallsWithMetadata = s.funcToCallsWithMetadata := by
        intro eis acc hacc
        exact foldl_preserves (fun acc : CCGState × List Nat =>
          acc.1.funcToCallsWithMetadata = s.funcToCallsWithMetadata) _ eis acc
          hacc (fun b a hb => (ih _ _ _).trans hb)
      have hfold := hr (getNode s n).callerEdges (s, v ++ [n]) rfl
      split
      · exact hfold
      · split
        · exact hfold
        · split
          · split
            · split
              · exact hfold
              · exact hfold
            · exact hfold
          · split
            · exact hfold
            · exact (assignNodeCalls_funcMeta _ _ _).trans hfold

theorem sanitizeStep_funcMeta (f : Call → Nat → Bool) (t : CCGState)
    (p : CallInfo × Nat) :
    (sanitizeStep f t p).funcToCallsWithMetadata =
      t.funcToCallsWithMetadata := by
  unfold sanitizeStep
  split <;> rfl

theorem handleCallsites_funcMeta (f : Call → Nat → Bool) (s : CCGState) :
    (handleCallsitesWithMultipleTargets f s).funcToCallsWithMetadata =
      s.funcToCallsWithMetadata := by
  unfold handleCallsitesWithMultipleTargets
  exact foldl_preserves (fun t : CCGState =>
    t.funcToCallsWithMetadata = s.funcToCallsWithMetadata) _ _ _ rfl
    (fun b a hb => (sanitizeStep_funcMeta f b a).trans hb)

theorem updateStackNodes_funcMeta (m : ModuleIR) (s : CCGState) :
    (updateStackNodes m s).funcToCallsWithMetadata =
      s.funcToCallsWithMetadata := by
  unfold updateStackNodes
  apply foldl_preserves (fun acc : CCGState × List Nat =>
    acc.1.funcToCallsWithMetadata = s.funcToCallsWithMetadata) _ _ _ ?_
    (fun b a hb => (assignStackNodesPostOrder_funcMeta _ _ _ _ _).trans hb)
  exact (propagateDuplicateContextIds_funcMeta _ _).trans
    (foldl_preserves (fun acc : (CCGState × List (Nat × IdSet)) ×
        List (Nat × List CallContextInfo) =>
      acc.1.1.funcToCallsWithMetadata = s.funcToCallsWithMetadata) _ _ _ rfl
      (fun b a hb => (processBucket_funcMeta m b.1 a).trans hb))

theorem foldl_preserves_mem {α β : Type} (P : β → Prop) (f : β → α → β) :
    ∀ (l : List α) (b : β), P b →
    (∀ b a, a ∈ l → P b → P (f b a)) → P (l.foldl f b) := by
  intro l
  induction l with
  | nil =>
    intro b hb _
    exact hb
  | cons a rest ih =>
    intro b hb hf
    exact ih (f b a) (hf b a (by simp) hb)
      (fun b' a' ha' hb' => hf b' a' (List.mem_cons_of_mem _ ha') hb')

theorem foldl_establishes {α β : Type} (P : β → Prop) (f : β → α → β)
    (q : α) (hest : ∀ b, P (f b q)) (hpres : ∀ b a, P b → P (f b a)) :
    ∀ (l : List α) (b : β), q ∈ l → P (l.foldl f b) := by
  intro l
  induction l with
  | nil =>
    intro b hq
    cases hq
  | cons a rest ih =>
    intro b hq
    rw [List.foldl_cons]
    rcases List.mem_cons.mp hq with rfl | hq'
    · exact foldl_preserves P f rest (f b q) (hest b) hpres
    · exact ih (f b a) hq'

theorem getInstr_setInstr_ne (m : ModuleIR) (c c' : Call)
    (g : Instr → Instr) (h : c' ≠ c) :
    getInstr (setInstr m c g) c' = getInstr m c' := by
  obtain ⟨cf, ci⟩ := c
  obtain ⟨cf', ci'⟩ := c'
  simp only [getInstr, setInstr, List.get?_eq_getElem?]
  by_cases h1 : cf = cf'
  · subst h1
    have h2 : ci ≠ ci' := by
      intro h2
      subst h2
      exact h rfl
    rw [List.getElem?_set, if_pos rfl]
    by_cases h3 : cf < m.length
    · rw [if_pos h3]
      simp only [Option.getD_some]
      rw [List.getElem?_set, if_neg h2]
    · rw [if_neg h3,
        show m[cf]? = none from List.getElem?_eq_none (by omega)]
  · rw [List.getElem?_set, if_neg h1]

theorem getInstr_setInstr_strip (m : ModuleIR) (c : Call) :
    getInstr (setInstr m c (fun ins => { ins with callsite := none })) c =
      { getInstr m c with callsite := none } := by
  obtain ⟨cf, ci⟩ := c
  simp only [getInstr, setInstr, List.get?_eq_getElem?]
  rw [List.getElem?_set, if_pos rfl]
  by_cases h3 : cf < m.length
  · rw [if_pos h3]
    simp only [Option.getD_some]
    rw [List.getElem?_set, if_pos rfl]
    by_cases h4 : ci < ((m[cf]?).getD []).length
    · rw [if_pos h4]
      rfl
    · rw [if_neg h4, List.getElem?_eq_none (by omega)]
      rfl
  · rw [if_neg h3, List.getElem?_eq_none (le_of_not_lt h3)]
    rfl

theorem strip_getInstr_cases (s : CCGState) (m : ModuleIR) (c : Call) :
    getInstr (stripRemainingCallsites s m) c = getInstr m c ∨
    getInstr (stripRemainingCallsites s m) c =
      { getInstr m c with callsite := none } := by
  unfold stripRemainingCallsites
  apply foldl_preserves (fun m' : ModuleIR =>
    getInstr m' c = getInstr m c ∨
    getInstr m' c = { getInstr m c with callsite := none }) _ _ _
    (Or.inl rfl)
  intro b a hb
  apply foldl_preserves (fun m' : ModuleIR =>
    getInstr m' c = getInstr m c ∨
    getInstr m' c = { getInstr m c with callsite := none }) _ _ _ hb
  intro b' a' hb'
  by_cases h : a'.1 = c
  · rcases hb' with h2 | h2 <;> rw [h, getInstr_setInstr_strip, h2]
    · exact Or.inr rfl
    · exact Or.inr rfl
  · rw [getInstr_setInstr_ne b' a'.1 c _ (fun he => h he.symm)]
    exact hb'

theorem strip_callsite_none (s : CCGState) (m : ModuleIR) (c : Call)
    (p0 : Nat × List CallInfo) (hp : p0 ∈ s.funcToCallsWithMetadata)
    (ci0 : CallInfo) (hci : ci0 ∈ p0.2) (hc : ci0.1 = c) :
    (getInstr (stripRemainingCallsites s m) c).callsite = none := by
  have hpres : ∀ (b : ModuleIR) (a' : CallInfo),
      (getInstr b c).callsite = none →
      (getInstr (setInstr b a'.1
        (fun ins => { ins with callsite := none })) c).callsite = none := by
    intro b' a' hb'
    by_cases h : a'.1 = c
    · rw [h, getInstr_setInstr_strip]
    · rw [getInstr_setInstr_ne _ _ _ _ (fun he => h he.symm)]
      exact hb'
  unfold stripRemainingCallsites
  apply foldl_establishes (fun m' : ModuleIR =>
    (getInstr m' c).callsite = none) _ p0 ?_ ?_ _ _ hp
  · intro b
    apply foldl_establishes (fun m' : ModuleIR =>
      (getInstr m' c).callsite = none) _ ci0 ?_ ?_ _ _ hci
    · intro b'
      rw [hc, getInstr_setInstr_strip]
    · exact hpres
  · intro b a hbn
    exact foldl_preserves (fun m' : ModuleIR =>
      (getInstr m' c).callsite = none) _ _ _ hbn hpres

theorem strip_getInstr_unrecorded (s : CCGState) (m : ModuleIR) (c : Call)
    (h : ∀ p ∈ s.funcToCallsWithMetadata, ∀ ci ∈ p.2, ci.1 ≠ c) :
    getInstr (stripRemainingCallsites s m) c = getInstr m c := by
  unfold stripRemainingCallsites
  apply foldl_preserves_mem (fun m' : ModuleIR =>
    getInstr m' c = getInstr m c) _ _ _ rfl
  intro b p hpmem hb
  apply foldl_preserves_mem (fun m' : ModuleIR =>
    getInstr m' c = getInstr m c) _ _ _ hb
  intro b' ci hcimem hb'
  rw [getInstr_setInstr_ne _ _ _ _ (h p hpmem ci hcimem).symm]
  exact hb'

/-- The effect of the constructor's scan on a single instruction, as a
pure function: allocation calls lose both metadata kinds, everything else
is kept verbatim.  (Characterization of `scanInstr`, proved against it
below.) -/
def stripAllocMetadata (ins : Instr) : Instr :=
  if ins.isCall && ins.memprof.isSome then
    { ins with memprof := none, callsite := none }
  else ins

theorem scanInstr_out (f i : Nat) (acc : CCGState × List CallInfo)
    (ins : Instr) : (scanInstr f i acc ins).2 = stripAllocMetadata ins := by
  unfold scanInstr stripAllocMetadata
  by_cases h1 : ins.isCall
  · cases hm : ins.memprof with
    | some mibs => simp [h1, hm]
    | none =>
      by_cases h2 : ins.callsite.isSome
      · simp [h1, hm, h2]
      · simp [h1, hm, h2]
  · simp [h1]

theorem scanSteps_out (f : Nat) :
    ∀ (instrs : List Instr)
    (acc : (CCGState × List CallInfo) × List Instr × Nat),
    (instrs.foldl (scanStep f) acc).2.1 =
      acc.2.1 ++ instrs.map stripAllocMetadata := by
  intro instrs
  induction instrs with
  | nil =>
    intro acc
    simp
  | cons a rest ih =>
    intro acc
    rw [List.foldl_cons, ih]
    show (acc.2.1 ++ [(scanInstr f acc.2.2 acc.1 a).2]) ++ _ = _
    rw [scanInstr_out]
    simp

theorem scanFunc_out (s : CCGState) (f : Nat) (instrs : List Instr) :
    (scanFunc s f instrs).2 = instrs.map stripAllocMetadata := by
  have h := scanSteps_out f instrs ((s, []), ([], 0))
  exact h.trans (List.nil_append _)

theorem moduleScanSteps_out :
    ∀ (ms : List (List Instr)) (acc : CCGState × ModuleIR × Nat),
    (ms.foldl moduleScanStep acc).2.1 =
      acc.2.1 ++ ms.map (fun instrs => instrs.map stripAllocMetadata) := by
  intro ms
  induction ms with
  | nil =>
    intro acc
    simp
  | cons a rest ih =>
    intro acc
    rw [List.foldl_cons, ih]
    show (acc.2.1 ++ [(scanFunc acc.1 acc.2.2 a).2]) ++ _ = _
    rw [scanFunc_out]
    simp

theorem moduleScan_out (m : ModuleIR) :
    (moduleScan m).2 =
      m.map (fun instrs => instrs.map stripAllocMetadata) := by
  have h := moduleScanSteps_out m ({}, ([], 0))
  exact h.trans (List.nil_append _)

theorem getInstr_moduleScan (m : ModuleIR) (c : Call) :
    getInstr (moduleScan m).2 c = stripAllocMetadata (getInstr m c) := by
  rw [moduleScan_out]
  unfold getInstr
  rw [List.get?_map]
  cases h1 : m.get? c.1 with
  | none => rfl
  | some l1 =>
    simp only [Option.map_some', Option.getD_some]
    rw [List.get?_map]
    cases h2 : l1.get? c.2 with
    | none => rfl
    | some ins => rfl

theorem scanInstr_calls_mono (f i : Nat) (acc : CCGState × List CallInfo)
    (ins : Instr) (x : CallInfo) (hx : x ∈ acc.2) :
    x ∈ (scanInstr f i acc ins).1.2 := by
  unfold scanInstr
  repeat' first
    | split
    | (dsimp only; split)
  all_goals first
    | exact hx
    | exact List.mem_append_left _ hx

theorem scanInstr_calls_new (f i : Nat) (acc : CCGState × List CallInfo)
    (ins : Instr) (hcall : ins.isCall = true)
    (hmeta : ins.memprof.isSome = true ∨ ins.callsite.isSome = true) :
    ((f, i), 0) ∈ (scanInstr f i acc ins).1.2 := by
  unfold scanInstr
  rw [if_neg (by simp [hcall])]
  cases hm : ins.memprof with
  | some mibs => simp
  | none =>
    rcases hmeta with hmp | hcs
    · rw [hm] at hmp
      cases hmp
    · rw [if_pos hcs]
      simp

theorem scanSteps_calls_mono (f : Nat) (instrs : List Instr)
    (acc : (CCGState × List CallInfo) × List Instr × Nat) (x : CallInfo)
    (hx : x ∈ acc.1.2) : x ∈ (instrs.foldl (scanStep f) acc).1.2 :=
  foldl_preserves (fun acc : (CCGState × List CallInfo) × List Instr × Nat =>
    x ∈ acc.1.2) (scanStep f) instrs acc hx
    (fun b a hb => scanInstr_calls_mono f b.2.2 b.1 a x hb)

theorem scanSteps_record (f : Nat) :
    ∀ (instrs : List Instr)
    (acc : (CCGState × List CallInfo) × List Instr × Nat)
    (j : Nat) (ins : Instr),
    instrs.get? j = some ins → ins.isCall = true →
    (ins.memprof.isSome = true ∨ ins.callsite.isSome = true) →
    ((f, acc.2.2 + j), 0) ∈ (instrs.foldl (scanStep f) acc).1.2 := by
  intro instrs
  induction instrs with
  | nil =>
    intro acc j ins hj
    cases hj
  | cons a rest ih =>
    intro acc j ins hj hcall hmeta
    rw [List.foldl_cons]
    cases j with
    | zero =>
      rw [Nat.add_zero]
      cases hj
      exact scanSteps_calls_mono f rest _ _
        (scanInstr_calls_new f acc.2.2 acc.1 a hcall hmeta)
    | succ j' =>
      rw [show acc.2.2 + (j' + 1) = (scanStep f acc a).2.2 + j' from by
        show _ = acc.2.2 + 1 + j'
        omega]
      exact ih (scanStep f acc a) j' ins hj hcall hmeta

theorem updNode_funcMeta (s : CCGState) (i : Nat)
    (g : ContextNode → ContextNode) :
    (updNode s i g).funcToCallsWithMetadata = s.funcToCallsWithMetadata :=
  rfl

theorem getOrCreateStackNode_funcMeta (s : CCGState) (stackId : Nat) :
    (getOrCreateStackNode s stackId).1.funcToCallsWithMetadata =
      s.funcToCallsWithMetadata := by
  unfold getOrCreateStackNode
  split <;> rfl

theorem addOrUpdateCallerEdge_funcMeta (s : CCGState)
    (selfIdx callerIdx t cid : Nat) :
    (addOrUpdateCallerEdge s selfIdx callerIdx t cid).funcToCallsWithMetadata
      = s.funcToCallsWithMetadata := by
  unfold addOrUpdateCallerEdge
  split <;> rfl

theorem addMIBChainStep_funcMeta (cid t : Nat) (s : CCGState)
    (prevIdx : Nat) (seen : List Nat) (stackId : Nat) :
    (addMIBChainStep cid t s prevIdx seen stackId).1.funcToCallsWithMetadata
      = s.funcToCallsWithMetadata := by
  unfold addMIBChainStep
  dsimp only
  rw [addOrUpdateCallerEdge_funcMeta, updNode_funcMeta]
  split
  · rw [updNode_funcMeta]
    exact getOrCreateStackNode_funcMeta s stackId
  · exact getOrCreateStackNode_funcMeta s stackId

theorem addMIBChain_funcMeta (cid t : Nat) :
    ∀ (l : List Nat) (s : CCGState) (prevIdx : Nat) (seen : List Nat),
    (addMIBChain cid t s prevIdx seen l).funcToCallsWithMetadata =
      s.funcToCallsWithMetadata := by
  intro l
  induction l with
  | nil =>
    intro s p seen
    rfl
  | cons a rest ih =>
    intro s p seen
    rw [addMIBChain]
    exact (ih _ _ _).trans (addMIBChainStep_funcMeta cid t s p seen a)

theorem addStackNodesForMIB_funcMeta (s : CCGState) (allocIdx : Nat)
    (stack ctx : List Nat) (t : Nat) :
    (addStackNodesForMIB s allocIdx stack ctx t).funcToCallsWithMetadata =
      s.funcToCallsWithMetadata := by
  unfold addStackNodesForMIB
  exact addMIBChain_funcMeta _ _ _ _ _ _

theorem scanInstr_funcMeta (f i : Nat) (acc : CCGState × List CallInfo)
    (ins : Instr) :
    (scanInstr f i acc ins).1.1.funcToCallsWithMetadata =
      acc.1.funcToCallsWithMetadata := by
  unfold scanInstr
  repeat' first
    | split
    | (dsimp only; split)
  all_goals first
    | rfl
    | exact foldl_preserves (fun s' : CCGState =>
        s'.funcToCallsWithMetadata = acc.1.funcToCallsWithMetadata) _ _ _
        rfl (fun b a hb => (addStackNodesForMIB_funcMeta b _ a.1 _ a.2).trans
          hb)

theorem scanSteps_funcs_eq (f : Nat) (instrs : List Instr)
    (acc : (CCGState × List CallInfo) × List Instr × Nat) :
    (instrs.foldl (scanStep f) acc).1.1.funcToCallsWithMetadata =
      acc.1.1.funcToCallsWithMetadata :=
  foldl_preserves (fun b : (CCGState × List CallInfo) × List Instr × Nat =>
    b.1.1.funcToCallsWithMetadata = acc.1.1.funcToCallsWithMetadata)
    (scanStep f) instrs acc rfl
    (fun b a hb => (scanInstr_funcMeta f b.2.2 b.1 a).trans hb)

theorem scanFunc_eq (s : CCGState) (f : Nat) (instrs : List Instr) :
    (scanFunc s f instrs).1 =
      (if (instrs.foldl (scanStep f) ((s, []), ([], 0))).1.2.isEmpty then
        (instrs.foldl (scanStep f) ((s, []), ([], 0))).1.1
      else { (instrs.foldl (scanStep f) ((s, []), ([], 0))).1.1 with
        funcToCallsWithMetadata :=
          (instrs.foldl (scanStep f)
            ((s, []), ([], 0))).1.1.funcToCallsWithMetadata ++
            [(f, (instrs.foldl (scanStep f) ((s, []), ([], 0))).1.2)] }) :=
  rfl

theorem scanFunc_record (s : CCGState) (f : Nat) (instrs : List Instr)
    (j : Nat) (ins : Instr) (hj : instrs.get? j = some ins)
    (hcall : ins.isCall = true)
    (hmeta : ins.memprof.isSome = true ∨ ins.callsite.isSome = true) :
    ∃ cl, (f, cl) ∈ (scanFunc s f instrs).1.funcToCallsWithMetadata ∧
      ((f, j), 0) ∈ cl := by
  have hmem := scanSteps_record f instrs ((s, []), ([], 0)) j ins hj hcall
    hmeta
  rw [Nat.zero_add] at hmem
  refine ⟨(instrs.foldl (scanStep f) ((s, []), ([], 0))).1.2, ?_, hmem⟩
  rw [scanFunc_eq]
  rw [if_neg (by
    simp only [List.isEmpty_eq_true]
    exact fun h => (List.ne_nil_of_mem hmem) h)]
  exact List.mem_append_right _ (by simp)

theorem scanFunc_funcs_mono (s : CCGState) (f : Nat) (instrs : List Instr)
    (x : Nat × List CallInfo) (hx : x ∈ s.funcToCallsWithMetadata) :
    x ∈ (scanFunc s f instrs).1.funcToCallsWithMetadata := by
  have hx2 : x ∈ (instrs.foldl (scanStep f)
      ((s, []), ([], 0))).1.1.funcToCallsWithMetadata := by
    rw [scanSteps_funcs_eq]
    exact hx
  rw [scanFunc_eq]
  split
  · exact hx2
  · exact List.mem_append_left _ hx2

theorem moduleScanSteps_record :
    ∀ (ms : List (List Instr)) (acc : CCGState × ModuleIR × Nat)
    (k : Nat) (instrs : List Instr) (j : Nat) (ins : Instr),
    ms.get? k = some instrs → instrs.get? j = some ins →
    ins.isCall = true →
    (ins.memprof.isSome = true ∨ ins.callsite.isSome = true) →
    ∃ cl, (acc.2.2 + k, cl) ∈
        (ms.foldl moduleScanStep acc).1.funcToCallsWithMetadata ∧
      ((acc.2.2 + k, j), 0) ∈ cl := by
  intro ms
  induction ms with
  | nil =>
    intro acc k instrs j ins hk
    cases hk
  | cons F rest ih =>
    intro acc k instrs j ins hk hj hcall hmeta
    rw [List.foldl_cons]
    cases k with
    | zero =>
      rw [Nat.add_zero]
      cases hk
      obtain ⟨cl, hcl1, hcl2⟩ := scanFunc_record acc.1 acc.2.2 F j ins
        hj hcall hmeta
      refine ⟨cl, ?_, hcl2⟩
      exact foldl_preserves (fun b : CCGState × ModuleIR × Nat =>
        (acc.2.2, cl) ∈ b.1.funcToCallsWithMetadata) moduleScanStep rest _
        hcl1 (fun b a hb => scanFunc_funcs_mono b.1 b.2.2 a _ hb)
    | succ k' =>
      rw [show acc.2.2 + (k' + 1) = (moduleScanStep acc F).2.2 + k' from by
        show _ = acc.2.2 + 1 + k'
        omega]
      exact ih (moduleScanStep acc F) k' instrs j ins hk hj hcall hmeta

theorem moduleScan_record (m : ModuleIR) (cf ci : Nat) (ins : Instr)
    (hf : ∃ instrs, m.get? cf = some instrs ∧ instrs.get? ci = some ins)
    (hcall : ins.isCall = true)
    (hmeta : ins.memprof.isSome = true ∨ ins.callsite.isSome = true) :
    ∃ cl, (cf, cl) ∈ (moduleScan m).1.funcToCallsWithMetadata ∧
      ((cf, ci), 0) ∈ cl := by
  obtain ⟨instrs, hm, hi⟩ := hf
  have h := moduleScanSteps_record m ({}, ([], 0)) cf instrs ci ins hm hi
    hcall hmeta
  rw [Nat.zero_add] at h
  exact h

theorem scanInstr_calls_sound (f i : Nat) (acc : CCGState × List CallInfo)
    (ins : Instr) (x : CallInfo)
    (hx : x ∈ (scanInstr f i acc ins).1.2) :
    x ∈ acc.2 ∨ (ins.isCall = true ∧ x = ((f, i), 0)) := by
  unfold scanInstr at hx
  by_cases h1 : ins.isCall
  · rw [if_neg (by simp [h1])] at hx
    cases hm : ins.memprof with
    | some mibs =>
      rw [hm] at hx
      dsimp only at hx
      rcases List.mem_append.mp hx with h2 | h2
      · exact Or.inl h2
      · exact Or.inr ⟨h1, List.mem_singleton.mp h2⟩
    | none =>
      rw [hm] at hx
      dsimp only at hx
      split at hx
      · rcases List.mem_append.mp hx with h2 | h2
        · exact Or.inl h2
        · exact Or.inr ⟨h1, List.mem_singleton.mp h2⟩
      · exact Or.inl hx
  · rw [if_pos (by simp [h1])] at hx
    exact Or.inl hx

theorem scanSteps_calls_sound (f : Nat) :
    ∀ (instrs : List Instr)
    (acc : (CCGState × List CallInfo) × List Instr × Nat) (x : CallInfo),
    x ∈ (instrs.foldl (scanStep f) acc).1.2 →
    x ∈ acc.1.2 ∨ ∃ j ins, instrs.get? j = some ins ∧ ins.isCall = true ∧
      x = ((f, acc.2.2 + j), 0) := by
  intro instrs
  induction instrs with
  | nil =>
    intro acc x hx
    exact Or.inl hx
  | cons a rest ih =>
    intro acc x hx
    rw [List.foldl_cons] at hx
    rcases ih (scanStep f acc a) x hx with h2 | ⟨j, ins, hj, hcall, hxe⟩
    · rcases scanInstr_calls_sound f acc.2.2 acc.1 a x h2 with h3 | ⟨h3, h4⟩
      · exact Or.inl h3
      · exact Or.inr ⟨0, a, rfl, h3, by rw [Nat.add_zero]; exact h4⟩
    · refine Or.inr ⟨j + 1, ins, hj, hcall, ?_⟩
      rw [hxe]
      rw [show (scanStep f acc a).2.2 = acc.2.2 + 1 from rfl,
        show acc.2.2 + 1 + j = acc.2.2 + (j + 1) from by omega]

theorem scanFunc_funcs_sound (s : CCGState) (f : Nat) (instrs : List Instr)
    (p : Nat × List CallInfo)
    (hp : p ∈ (scanFunc s f instrs).1.funcToCallsWithMetadata) :
    p ∈ s.funcToCallsWithMetadata ∨
    (p.1 = f ∧ ∀ ci ∈ p.2, ∃ j ins, instrs.get? j = some ins ∧
      ins.isCall = true ∧ ci = ((f, j), 0)) := by
  rw [scanFunc_eq] at hp
  split at hp
  · rw [scanSteps_funcs_eq] at hp
    exact Or.inl hp
  · rcases List.mem_append.mp hp with h2 | h2
    · rw [scanSteps_funcs_eq] at h2
      exact Or.inl h2
    · have h3 := List.mem_singleton.mp h2
      subst h3
      refine Or.inr ⟨rfl, fun ci hci => ?_⟩
      rcases scanSteps_calls_sound f instrs ((s, []), ([], 0)) ci hci with
        h4 | ⟨j, ins, hj, hcall, hxe⟩
      · cases h4
      · exact ⟨j, ins, hj, hcall, by rw [hxe, Nat.zero_add]⟩

theorem moduleScanSteps_sound (m0 : ModuleIR) :
    ∀ (ms : List (List Instr)) (acc : CCGState × ModuleIR × Nat),
    (∀ p ∈ acc.1.funcToCallsWithMetadata, ∀ ci ∈ p.2,
      (getInstr m0 ci.1).isCall = true) →
    (∀ k, ms.get? k = m0.get? (acc.2.2 + k)) →
    ∀ p ∈ (ms.foldl moduleScanStep acc).1.funcToCallsWithMetadata,
    ∀ ci ∈ p.2, (getInstr m0 ci.1).isCall = true := by
  intro ms
  induction ms with
  | nil =>
    intro acc hQ _
    exact hQ
  | cons F rest ih =>
    intro acc hQ hms
    rw [List.foldl_cons]
    apply ih (moduleScanStep acc F)
    · intro p hp ci hci
      rcases scanFunc_funcs_sound acc.1 acc.2.2 F p hp with h2 | ⟨h2, h3⟩
      · exact hQ p h2 ci hci
      · obtain ⟨j, ins, hj, hcall, hxe⟩ := h3 ci hci
        subst hxe
        have hm0 : m0.get? acc.2.2 = some F := by
          have h4 := hms 0
          rw [Nat.add_zero] at h4
          exact h4.symm
        show (getInstr m0 (acc.2.2, j)).isCall = true
        unfold getInstr
        rw [hm0]
        simp only [Option.getD_some]
        rw [hj]
        exact hcall
    · intro k
      have h4 := hms (k + 1)
      rw [show acc.2.2 + (k + 1) = (moduleScanStep acc F).2.2 + k from by
        show _ = acc.2.2 + 1 + k
        omega] at h4
      exact h4

theorem moduleScan_funcs_sound (m0 : ModuleIR) :
    ∀ p ∈ (moduleScan m0).1.funcToCallsWithMetadata, ∀ ci ∈ p.2,
    (getInstr m0 ci.1).isCall = true := by
  intro p hp
  exact moduleScanSteps_sound m0 m0 ({}, ([], 0))
    (by intro p' hp'; exact absurd hp' (List.not_mem_nil p'))
    (by intro k; rw [Nat.zero_add]) p hp

theorem instr_strip_collapse (ins : Instr) (hm : ins.memprof = none) :
    ({ ins with callsite := none } : Instr) =
      { ins with memprof := none, callsite := none } := by
  cases ins
  simp_all

theorem instr_strip_id (ins : Instr) (hc : ins.callsite = none) :
    ({ ins with callsite := none } : Instr) = ins := by
  cases ins
  simp_all

theorem getInstr_mem_of_callsite (m0 : ModuleIR) (c : Call)
    (h : (getInstr m0 c).callsite ≠ none) :
    ∃ instrs, m0.get? c.1 = some instrs ∧
      instrs.get? c.2 = some (getInstr m0 c) := by
  unfold getInstr at h ⊢
  cases h1 : m0.get? c.1 with
  | none =>
    rw [h1] at h
    exact absurd rfl h
  | some l1 =>
    rw [h1] at h
    refine ⟨l1, rfl, ?_⟩
    simp only [Option.getD_some] at h ⊢
    cases h2 : l1.get? c.2 with
    | none =>
      rw [h2] at h
      exact absurd rfl h
    | some ins =>
      rfl

/-- C10: constructing the IR-backed graph mutates the module: after the
constructor finishes, every call instruction that carried `!memprof` or
`!callsite` metadata has both kinds removed — allocation calls during the
initial scan, remaining callsites by the final strip over
`FuncToCallsWithMetadata` — and every other instruction (non-calls and
metadata-free calls) is returned unchanged. -/
theorem C10_construction_strips_metadata (matchFn : Call → Nat → Bool)
    (m0 : ModuleIR) (c : Call) :
    ((getInstr m0 c).isCall = true →
      ((getInstr m0 c).memprof ≠ none ∨ (getInstr m0 c).callsite ≠ none) →
      getInstr (moduleCCGConstruct matchFn m0).2 c =
        { getInstr m0 c with memprof := none, callsite := none }) ∧
    ((getInstr m0 c).isCall = false ∨
      ((getInstr m0 c).memprof = none ∧ (getInstr m0 c).callsite = none) →
      getInstr (moduleCCGConstruct matchFn m0).2 c = getInstr m0 c) := by
  have hm1 : getInstr (moduleScan m0).2 c =
      stripAllocMetadata (getInstr m0 c) := getInstr_moduleScan m0 c
  have hcc : (moduleCCGConstruct matchFn m0).2 =
      stripRemainingCallsites (handleCallsitesWithMultipleTargets matchFn
        (updateStackNodes (moduleScan m0).2 (moduleScan m0).1))
        (moduleScan m0).2 := rfl
  have hfuncs : (handleCallsitesWithMultipleTargets matchFn
      (updateStackNodes (moduleScan m0).2
        (moduleScan m0).1)).funcToCallsWithMetadata =
      (moduleScan m0).1.funcToCallsWithMetadata := by
    rw [handleCallsites_funcMeta, updateStackNodes_funcMeta]
  constructor
  · intro hcall hmeta
    cases hm : (getInstr m0 c).memprof with
    | some mibs =>
      have hstripA : stripAllocMetadata (getInstr m0 c) =
          { getInstr m0 c with memprof := none, callsite := none } := by
        unfold stripAllocMetadata
        rw [if_pos (by simp [hcall, hm])]
      rw [hcc]
      rcases strip_getInstr_cases _ (moduleScan m0).2 c with h2 | h2
      · rw [h2, hm1, hstripA]
      · rw [h2, hm1, hstripA]
    | none =>
      have hcs : (getInstr m0 c).callsite ≠ none := by
        rcases hmeta with h3 | h3
        · exact absurd hm h3
        · exact h3
      have hstripA : stripAllocMetadata (getInstr m0 c) = getInstr m0 c := by
        unfold stripAllocMetadata
        rw [if_neg (by simp [hm])]
      obtain ⟨instrs, hf1, hf2⟩ := getInstr_mem_of_callsite m0 c hcs
      obtain ⟨cl, hcl1, hcl2⟩ := moduleScan_record m0 c.1 c.2 (getInstr m0 c)
        ⟨instrs, hf1, hf2⟩ hcall (Or.inr (by
          cases h4 : (getInstr m0 c).callsite
          · exact absurd h4 hcs
          · rfl))
      have hrec : (c.1, cl) ∈ (handleCallsitesWithMultipleTargets matchFn
          (updateStackNodes (moduleScan m0).2
            (moduleScan m0).1)).funcToCallsWithMetadata := by
        rw [hfuncs]
        exact hcl1
      have hnone := strip_callsite_none _ (moduleScan m0).2 c (c.1, cl) hrec
        ((c.1, c.2), 0) hcl2 (by rfl)
      rw [hcc]
      rcases strip_getInstr_cases (handleCallsitesWithMultipleTargets matchFn
          (updateStackNodes (moduleScan m0).2 (moduleScan m0).1))
          (moduleScan m0).2 c with h2 | h2
      · rw [h2, hm1, hstripA] at hnone
        exact absurd hnone hcs
      · rw [h2, hm1, hstripA]
        exact instr_strip_collapse _ hm
  · intro hyp
    have hstripA : stripAllocMetadata (getInstr m0 c) = getInstr m0 c := by
      unfold stripAllocMetadata
      rcases hyp with h3 | ⟨h3, _⟩
      · rw [if_neg (by simp [h3])]
      · rw [if_neg (by simp [h3])]
    rcases hyp with h3 | ⟨h3, h4⟩
    · have hnr : ∀ p ∈ (handleCallsitesWithMultipleTargets matchFn
          (updateStackNodes (moduleScan m0).2
            (moduleScan m0).1)).funcToCallsWithMetadata,
          ∀ ci ∈ p.2, ci.1 ≠ c := by
        rw [hfuncs]
        intro p hp ci hci he
        have h5 := moduleScan_funcs_sound m0 p hp ci hci
        rw [he, h3] at h5
        cases h5
      rw [hcc, strip_getInstr_unrecorded _ _ _ hnr, hm1, hstripA]
    · rw [hcc]
      rcases strip_getInstr_cases (handleCallsitesWithMultipleTargets matchFn
          (updateStackNodes (moduleScan m0).2 (moduleScan m0).1))
          (moduleScan m0).2 c with h2 | h2
      · rw [h2, hm1, hstripA]
      · rw [h2, hm1, hstripA]
        exact instr_strip_id _ h4

/-- Witness for C10 on the callsite-only call of the stale-types module:
construction removes its metadata. -/
theorem C10_witness :
    (getInstr staleTypesModule (0, 2)).isCall = true ∧
    ((getInstr staleTypesModule (0, 2)).memprof ≠ none ∨
      (getInstr staleTypesModule (0, 2)).callsite ≠ none) ∧
    getInstr (moduleCCGConstruct (fun _ _ => true) staleTypesModule).2
        (0, 2) =
      { getInstr staleTypesModule (0, 2) with
        memprof := none, callsite := none } :=
  ⟨by decide, by decide,
    (C10_construction_strips_metadata (fun _ _ => true) staleTypesModule
      (0, 2)).1 (by decide) (by decide)⟩
